import Mathlib

/-!
# ops-passwd-srv: the credential-mutation core of `src/passwd_srv_util.c`

A shallow embedding of the salt generator, the hash-method resolver, the
shadow-store accessor, the authorization checker and the request dispatcher,
followed by the properties established about them.

Conventions of the embedding.

* A C string is the list of its characters before the terminating NUL
  (`CStr`); a `NULL` pointer is `none`.
* Everything the C code obtains from its environment is an explicit argument:
  the values `random()` returns, the lines `fgets` reads from `login.defs`,
  the bytes of the shadow file, the outcome of `lckpwdf` and `fopen`, the
  effect of the external `useradd`/`userdel` commands.
* The header `passwd_srv_pri.h` is not among the sources, so the numeric
  values of the `PASSWD_ERR_*` and `PASSWD_MSG_*` constants are an argument
  (`Consts`) of every function that uses one.
* libc functions (`strncmp`, `memcmp`, `l64a`, `fgetspent`, `putspent`, ...)
  are modelled from their behaviour; `fgetspent` and `putspent` follow the
  glibc implementation (`strtoull`, the `UINT_MAX` check, the old and the
  new line forms, `+name`/`-name` entries).
-/

namespace PasswdSrv

/-! ## C strings -/

/-- The characters of a C string before its terminating NUL. -/
abbrev CStr := List Char

/-- The C library `strlen`. -/
def strlen (s : CStr) : Nat := s.length

/-- The C library `strncmp`: compares at most `n` characters, where the end of
a string reads as the terminating NUL (value 0) and stops the comparison.
The result is the difference of the first two differing characters taken as
unsigned bytes, `0` when there is none. -/
def strncmp : CStr → CStr → Nat → Int
  | _, _, 0 => 0
  | [], [], _ + 1 => 0
  | [], y :: _, _ + 1 => 0 - (y.toNat : Int)
  | x :: _, [], _ + 1 => (x.toNat : Int)
  | x :: xs, y :: ys, n + 1 =>
      if x = y then strncmp xs ys n else (x.toNat : Int) - (y.toNat : Int)

/-- The C library `memcmp` applied to the buffers of two C strings. The buffer
of a string holds its characters and then the terminating NUL; what lies
behind the terminator is not determined by the string. The result is `some d`
when the outcome is determined by the strings (a difference `d` was found, or
all `n` bytes compared lie within the two buffers), and `none` when `memcmp`
would have to read behind a terminator to decide. -/
def memcmp : CStr → CStr → Nat → Option Int
  | _, _, 0 => some 0
  | x :: xs, y :: ys, n + 1 =>
      if x = y then memcmp xs ys n else some ((x.toNat : Int) - (y.toNat : Int))
  | [], y :: _, n + 1 =>
      if y.toNat = 0 then (if n = 0 then some 0 else none) else some (0 - (y.toNat : Int))
  | x :: _, [], n + 1 =>
      if x.toNat = 0 then (if n = 0 then some 0 else none) else some (x.toNat : Int)
  | [], [], n + 1 => if n = 0 then some 0 else none

/-- The byte `s[i]` of the buffer of a C string, for `i ≤ strlen s`: a
character of the string, or the terminating NUL at `i = strlen s`. -/
def charAt (s : CStr) (i : Nat) : Char := s.getD i (Char.ofNat 0)

/-! ## Constants of the missing header -/

/-- The integer constants that `passwd_srv_pri.h` defines and
`passwd_srv_util.c` uses. The header is not among the sources, so their
values are left open. -/
structure Consts where
  PASSWD_ERR_FATAL : Int
  PASSWD_ERR_SUCCESS : Int
  PASSWD_ERR_USER_NOT_FOUND : Int
  PASSWD_ERR_PASSWORD_NOT_MATCH : Int
  PASSWD_ERR_USER_EXIST : Int
  PASSWD_ERR_USERADD_FAILED : Int
  PASSWD_ERR_USERDEL_FAILED : Int
  PASSWD_ERR_INVALID_OPCODE : Int
  PASSWD_ERR_INVALID_USER : Int
  PASSWD_ERR_INVALID_PARAM : Int
  PASSWD_ERR_PASSWD_UPD_FAIL : Int
  PASSWD_MSG_CHG_PASSWORD : Int
  PASSWD_MSG_ADD_USER : Int
  PASSWD_MSG_DEL_USER : Int

/-- One assignment of pairwise different values to the constants, used where a
statement needs a concrete instance. -/
def sampleConsts : Consts where
  PASSWD_ERR_FATAL := -1
  PASSWD_ERR_SUCCESS := 0
  PASSWD_ERR_USER_NOT_FOUND := 1
  PASSWD_ERR_PASSWORD_NOT_MATCH := 2
  PASSWD_ERR_USER_EXIST := 3
  PASSWD_ERR_USERADD_FAILED := 4
  PASSWD_ERR_USERDEL_FAILED := 5
  PASSWD_ERR_INVALID_OPCODE := 6
  PASSWD_ERR_INVALID_USER := 7
  PASSWD_ERR_INVALID_PARAM := 8
  PASSWD_ERR_PASSWD_UPD_FAIL := 9
  PASSWD_MSG_CHG_PASSWORD := 1
  PASSWD_MSG_ADD_USER := 2
  PASSWD_MSG_DEL_USER := 3

/-! ## Salt generator -/

def MAX_SALT_SIZE : Nat := 16
def MIN_SALT_SIZE : Nat := 8

/-- The value of `RAND_MAX` in the C library: `random()` returns a value
between `0` and `2^31 - 1`. -/
def RAND_MAX : Nat := 2147483647

/-- How a call that draws from `random()` ends, given the finite sequence of
values supplied for the successive `random()` calls. -/
inductive Outcome (α : Type) where
  /-- The call returned the value. -/
  | ret (a : α)
  /-- The call passed a NULL pointer to a library function that reads a string. -/
  | undefined
  /-- The values supplied were used up before the call returned. -/
  | starved
  deriving DecidableEq, Repr

/-- The radix-64 alphabet of `l64a`. -/
def conv_table : List Char :=
  "./0123456789ABCDEFGHIJKLMNOPQRSTUVWXYZabcdefghijklmnopqrstuvwxyz".toList

/-- The digit loop of `l64a`: least significant digit first, until the value
is zero. -/
def l64a_loop : Nat → Nat → CStr
  | 0, _ => []
  | fuel + 1, m =>
      if m = 0 then [] else conv_table.getD (m % 64) '.' :: l64a_loop fuel (m / 64)

/-- The C library `l64a`: only the low 32 bits are used, `0` gives the empty
string, and a 32-bit value has at most six radix-64 digits. -/
def l64a (n : Nat) : CStr := l64a_loop 6 (n % 2 ^ 32)

/-- The loop `do { strcat (salt, l64a (random())); } while (strlen (salt) < salt_size);`
of `generate_salt`: `none` when the random values run out first. -/
def generate_salt_loop (salt_size : Nat) : CStr → List Nat → Option CStr
  | _, [] => none
  | salt, r :: rs =>
      let salt1 := salt ++ l64a r
      if strlen salt1 < salt_size then generate_salt_loop salt_size salt1 rs else some salt1

/-- The function `generate_salt (salt_size)`, lines 68-89; `rnd` holds the values of the
successive `random()` calls (`create_seed` only selects that sequence). The
result `ret none` is the NULL return. The string built in `salt[32]` never
exceeds 21 characters (`generate_salt_fits_buffer`). -/
def generate_salt (salt_size : Nat) (rnd : List Nat) : Outcome (Option CStr) :=
  if ¬ (salt_size ≥ MIN_SALT_SIZE ∧ salt_size ≤ MAX_SALT_SIZE) then .ret none
  else
    match rnd with
    | [] => .starved
    | r :: rs =>
        match generate_salt_loop salt_size ([] ++ l64a r) rs with
        | none => .starved
        | some salt => .ret (some (salt.take salt_size))

/-- The function `SHA_salt_size ()`, lines 96-102, for the value `r` that `random()`
returns: the truncation of `8 + 9.0 * r / RAND_MAX`, in exact arithmetic.
(`9 * r < 2^35` is exact in a `double`, and the correctly rounded quotient
has the same integer part as the exact one.) -/
def SHA_salt_size (r : Nat) : Nat := 8 + 9 * r / RAND_MAX

/-! ## Hash-method resolver -/

/-- The scan of `search_login_defs` over the lines that `fgets` returns (each
with its trailing newline, when the file has one there): the first line that
begins with `target` followed by a blank yields the rest of that line. -/
def search_lines (target : CStr) : List CStr → Option CStr
  | [] => none
  | line :: rest =>
      if memcmp line target (strlen target) = some 0 ∧ charAt line (strlen target) = ' ' then
        some (line.drop (strlen target + 1))
      else search_lines target rest

/-- The function `search_login_defs (target)`, lines 112-140. `login_defs` is `none` when
`login.defs` cannot be opened, and otherwise the lines `fgets` reads from it. -/
def search_login_defs (login_defs : Option (List CStr)) (target : CStr) : Option CStr :=
  match login_defs with
  | none => none
  | some lines => search_lines target lines

/-- The function `find_encrypt_method ()`, lines 188-215: the value it stores in the global
`crypt_method`. -/
def find_encrypt_method (login_defs : Option (List CStr)) : CStr :=
  match search_login_defs login_defs "ENCRYPT_METHOD".toList with
  | none =>
      match search_login_defs login_defs "MD5_CRYPT_ENAB".toList with
      | none => "DES".toList
      | some method =>
          if strncmp method "no".toList (strlen method) = 0 then "DES".toList
          else "MD5".toList
  | some method => method

/-- The macro `MAGNUM(array, ch)`: the string `$ch$`. -/
def MAGNUM (ch : Char) : CStr := ['$', ch, '$']

/-- The tail of `create_new_salt`, lines 265-271:
`strncat (result, generate_salt (salt_len), sizeof (result) - strlen (result) - 1)`
with `char result[40]`, then `strdup`. -/
def concat_salt (result : CStr) (salt_len : Nat) (rnd : List Nat) : Outcome (Option CStr) :=
  match generate_salt salt_len rnd with
  | .ret (some salt) => .ret (some (result ++ salt.take (40 - strlen result - 1)))
  | .ret none => .undefined
  | .undefined => .undefined
  | .starved => .starved

/-- The function `create_new_salt ()`, lines 221-272. `crypt_method` is the global of that
name on entry; the pair returned is the global on exit and the outcome of the
call (`ret none` is the NULL return). `rnd` holds the values of the
successive `random()` calls. -/
def create_new_salt (crypt_method : Option CStr) (login_defs : Option (List CStr))
    (rnd : List Nat) : Option CStr × Outcome (Option CStr) :=
  let method : CStr :=
    match crypt_method with
    | none => find_encrypt_method login_defs
    | some m => m
  let out : Outcome (Option CStr) :=
    if strncmp method "MD5".toList (strlen "MD5".toList) = 0 then
      concat_salt (MAGNUM '1') 8 rnd
    else if strncmp method "SHA256".toList (strlen "SHA256".toList) = 0 then
      match rnd with
      | [] => .starved
      | r :: rs => concat_salt (MAGNUM '5') (SHA_salt_size r) rs
    else if strncmp method "SHA512".toList (strlen "SHA512".toList) = 0 then
      match rnd with
      | [] => .starved
      | r :: rs => concat_salt (MAGNUM '6') (SHA_salt_size r) rs
    else if strncmp method "DES".toList (strlen "DES".toList) ≠ 0 then
      concat_salt [] 8 rnd
    else
      .ret none
  (some method, out)

/-! ## The shadow file and its records -/

/-- The fields of `struct spwd` (`<shadow.h>`). The six `long` fields hold `-1`
and `sp_flag` (an `unsigned long`) holds `2^64 - 1` when the field is empty in
the file; `sp_pwdp` is `none` for the NULL pointer that `fgetspent` stores for
an entry that consists of `+name` or `-name` alone. -/
structure spwd where
  sp_namp : CStr
  sp_pwdp : Option CStr
  sp_lstchg : Int
  sp_min : Int
  sp_max : Int
  sp_warn : Int
  sp_inact : Int
  sp_expire : Int
  sp_flag : Nat
  deriving DecidableEq, Repr

/-- The lines of a text file as a line reader returns them one after the
other: every line keeps its newline, the last one may lack it. -/
def readLines : List Char → List (List Char)
  | [] => []
  | c :: cs =>
      if c = '\n' then [c] :: readLines cs
      else
        match readLines cs with
        | [] => [[c]]
        | l :: ls => (c :: l) :: ls

/-- The C library `isspace` in the C locale. -/
def isspace (c : Char) : Bool :=
  c = ' ' || c = '\t' || c = '\n' || c = Char.ofNat 11 || c = Char.ofNat 12 || c = '\r'

/-- The value of a decimal digit character. -/
def digitVal (c : Char) : Nat := c.toNat - 48

/-- The value of a decimal numeral. -/
def decValue (s : List Char) : Nat := s.foldl (fun acc c => 10 * acc + digitVal c) 0

/-- The decimal digits of `n`, most significant first; `fuel` bounds their
number. -/
def decDigits : Nat → Nat → List Char
  | 0, _ => []
  | fuel + 1, n =>
      if n < 10 then [Char.ofNat (48 + n)]
      else decDigits fuel (n / 10) ++ [Char.ofNat (48 + n % 10)]

/-- What `printf ("%ld", v)` writes. -/
def fmt_ld (v : Int) : List Char :=
  if v < 0 then '-' :: decDigits (v.natAbs + 1) v.natAbs
  else decDigits (v.toNat + 1) v.toNat

/-- The text `putspent` writes for one of the six `long` fields: nothing for
`-1`, else the number. -/
def put_field (v : Int) : List Char := if v = -1 then [] else fmt_ld v

/-- The text `putspent` writes for `sp_flag`: nothing for `~0ul`, else the
value printed with `%ld`. -/
def put_flag (flag : Nat) : List Char :=
  if flag = 2 ^ 64 - 1 then []
  else if flag < 2 ^ 63 then fmt_ld (flag : Int) else fmt_ld ((flag : Int) - 2 ^ 64)

/-- The constant `UINT_MAX`. -/
def UINT_MAX : Nat := 4294967295

/-- The C library `strtoull (s, &endp, 10)`: leading blanks are skipped, a
sign may follow, then the decimal digits. The result is the value and the
text at `endp`, or `none` when there is no digit (the call then returns `0`
and `endp` is `s`). A value that does not fit 64 bits yields `ULLONG_MAX`, a
minus sign negates the value modulo `2^64`. -/
def strtoull (s : List Char) : Option (Nat × List Char) :=
  let t := s.dropWhile isspace
  let neg : Bool := t.head? = some '-'
  let u := if t.head? = some '-' ∨ t.head? = some '+' then t.tail else t
  let ds := u.takeWhile Char.isDigit
  if ds = [] then none
  else
    let d := decValue ds
    some (if 2 ^ 64 ≤ d then 2 ^ 64 - 1 else if neg then (2 ^ 64 - d) % 2 ^ 64 else d,
      u.dropWhile Char.isDigit)

/-- The end of the macro `INT_FIELD_MAYBE_NULL` of the C library: behind the
number the text must end, or (unless the field is the last one) a colon must
follow, which is passed over. -/
def int_field_end (colon : Bool) (v : Option Nat) : List Char → Option (Option Nat × List Char)
  | [] => some (v, [])
  | c :: rest => if colon && c = ':' then some (v, rest) else none

/-- The macro `INT_FIELD_MAYBE_NULL` of the C library, by which `fgetspent`
reads a numeric field: `none` when the line is malformed (the text has ended,
the number exceeds `UINT_MAX`, or something other than the terminator follows
it), else the number read (`none` when there is no digit, which stands for the
default value) and the rest of the line. `colon` tells whether a colon
terminates the field; it does not for `sp_flag`. -/
def int_field (colon : Bool) (line : List Char) : Option (Option Nat × List Char) :=
  match line with
  | [] => none
  | _ :: _ =>
      match strtoull line with
      | some (tmp, endp) => if tmp > UINT_MAX then none else int_field_end colon (some tmp) endp
      | none => int_field_end colon none line

/-- The conversion `(long int) (int)` of a number read, with the default `-1`. -/
def to_long (v : Option Nat) : Int :=
  match v with
  | none => -1
  | some t => if t < 2 ^ 31 then (t : Int) else (t : Int) - 2 ^ 32

/-- The conversion `(unsigned long int)` of a number read, with the default
`~0ul`. -/
def to_ulong (v : Option Nat) : Nat :=
  match v with
  | none => 2 ^ 64 - 1
  | some t => t

/-- The line parser of the C library for shadow entries (`sgetspent_r.c`),
applied to the text of a line up to its newline: the name and the password
are the text up to the next colon; an entry that is `+name` or `-name` alone
gets a NULL password and fixed numbers; otherwise `sp_lstchg`, `sp_min` and
`sp_max` must follow, then either nothing but blanks (the old form) or
`sp_warn`, `sp_inact`, `sp_expire` and possibly `sp_flag`. -/
def parse_body (line : List Char) : Option spwd :=
  let name := line.takeWhile (fun x => x ≠ ':')
  let line1 := (line.dropWhile (fun x => x ≠ ':')).drop 1
  if line1 = [] ∧ (name.head? = some '+' ∨ name.head? = some '-') then
    some { sp_namp := name, sp_pwdp := none, sp_lstchg := 0, sp_min := 0, sp_max := 0,
           sp_warn := -1, sp_inact := -1, sp_expire := -1, sp_flag := 2 ^ 64 - 1 }
  else
    let pwd := line1.takeWhile (fun x => x ≠ ':')
    let line2 := (line1.dropWhile (fun x => x ≠ ':')).drop 1
    match int_field true line2 with
    | none => none
    | some (lstchg, line3) =>
    match int_field true line3 with
    | none => none
    | some (min, line4) =>
    match int_field true line4 with
    | none => none
    | some (max, line5) =>
    match line5.dropWhile isspace with
    | [] =>
        some { sp_namp := name, sp_pwdp := some pwd, sp_lstchg := to_long lstchg,
               sp_min := to_long min, sp_max := to_long max,
               sp_warn := -1, sp_inact := -1, sp_expire := -1, sp_flag := 2 ^ 64 - 1 }
    | c :: cs =>
    match int_field true (c :: cs) with
    | none => none
    | some (warn, line7) =>
    match int_field true line7 with
    | none => none
    | some (inact, line8) =>
    match int_field true line8 with
    | none => none
    | some (expire, line9) =>
    match line9 with
    | [] =>
        some { sp_namp := name, sp_pwdp := some pwd, sp_lstchg := to_long lstchg,
               sp_min := to_long min, sp_max := to_long max, sp_warn := to_long warn,
               sp_inact := to_long inact, sp_expire := to_long expire, sp_flag := 2 ^ 64 - 1 }
    | _ :: _ =>
    match int_field false line9 with
    | none => none
    | some (flag, _) =>
        some { sp_namp := name, sp_pwdp := some pwd, sp_lstchg := to_long lstchg,
               sp_min := to_long min, sp_max := to_long max, sp_warn := to_long warn,
               sp_inact := to_long inact, sp_expire := to_long expire, sp_flag := to_ulong flag }

/-- The buffer that the line reader of the C library (`__nss_readline`) hands
to the parser. The line is a C string, so it ends at its first NUL if it
holds one. Leading blanks are removed by `memmove (buf, p, strlen (p))`, which
moves the text but not its terminator: the last characters of the line, as
many as there were leading blanks, stay behind the text moved. (They lie
behind the newline, where the parser does not look, unless the line has no
newline.) -/
def line_buffer (line : List Char) : List Char :=
  let s := line.takeWhile (fun x => x ≠ Char.ofNat 0)
  let p := s.dropWhile isspace
  if p.length = s.length then s else p ++ s.drop p.length

/-- The record that `fgetspent` makes of one line of the shadow file, `none`
when it passes the line over: a line that is empty after its leading blanks
or starts with `#` there is ignored, and so is a line that the parser
rejects. -/
def parse_line (line : List Char) : Option spwd :=
  match (line.takeWhile (fun x => x ≠ Char.ofNat 0)).dropWhile isspace with
  | [] => none
  | c :: _ =>
      if c = '#' then none
      else parse_body ((line_buffer line).takeWhile (fun x => x ≠ '\n'))

/-- The check `__nss_valid_field` of the C library: a field that can be
written holds neither a colon nor a newline. -/
def nss_valid_field (s : CStr) : Bool := !(s.contains ':' || s.contains '\n')

/-- The C library `putspent`: the line it writes for a record, `none` when it
refuses the record (a colon or a newline in the name or the password) and
writes nothing. A NULL password is valid and written as the empty string. -/
def putspent (p : spwd) : Option (List Char) :=
  if nss_valid_field p.sp_namp && nss_valid_field (p.sp_pwdp.getD []) then
    some (p.sp_namp ++ ':' :: p.sp_pwdp.getD [] ++ ':' :: put_field p.sp_lstchg ++ ':' ::
      put_field p.sp_min ++ ':' :: put_field p.sp_max ++ ':' :: put_field p.sp_warn ++ ':' ::
      put_field p.sp_inact ++ ':' :: put_field p.sp_expire ++ ':' :: put_flag p.sp_flag ++ ['\n'])
  else none

/-- Writing `bytes` to a stream opened for update and positioned at offset
`pos`: the bytes replace what the file holds from there on and extend the
file where they reach past its end. -/
def fwrite_at (data : List Char) (pos : Nat) (bytes : List Char) : List Char :=
  data.take pos ++ bytes ++ data.drop (pos + bytes.length)

/-- The records of a shadow file in file order, as successive `fgetspent`
calls return them. -/
def records (data : List Char) : List spwd := (readLines data).filterMap parse_line

/-- The state of the system that the shadow-store accessor works on. -/
structure Sys where
  /-- The bytes of the shadow file. -/
  shadow : List Char
  /-- Whether `lckpwdf ()` obtains the lock. -/
  lock_ok : Bool
  /-- Whether `fopen` of the shadow file succeeds. -/
  open_ok : Bool
  /-- Whether this process holds the shadow lock. -/
  locked : Bool
  /-- The number of streams this process has open on the shadow file. -/
  open_files : Nat
  deriving DecidableEq, Repr

/-! ## Shadow-store accessor -/

/-- The loop of `find_password_info`, lines 477-492, over the lines not yet
read: `fgetspent` passes over the lines it cannot parse, and the first record
that the `memcmp` test accepts is returned. -/
def find_scan (username : CStr) : List (List Char) → Option spwd
  | [] => none
  | l :: ls =>
      match parse_line l with
      | none => find_scan username ls
      | some password =>
          let uname_len := strlen username
          let cur_uname_len := strlen password.sp_namp
          let name_len := if cur_uname_len ≥ uname_len then cur_uname_len else uname_len
          if memcmp password.sp_namp username name_len = some 0 then some password
          else find_scan username ls

/-- The function `find_password_info (username)`, lines 449-502: the entry returned (`none`
is NULL) and the state of the system on return. -/
def find_password_info (username : Option CStr) (s : Sys) : Option spwd × Sys :=
  match username with
  | none => (none, s)
  | some username =>
      if ¬ s.lock_ok then (none, s)
      else
        let s1 := { s with locked := true }
        if ¬ s1.open_ok then (none, s1)
        else
          let s2 := { s1 with open_files := s1.open_files + 1 }
          (find_scan username (readLines s2.shadow),
            { s2 with locked := false, open_files := s2.open_files - 1 })

/-- The loop of `store_password`, lines 310-331. `cur_pos` is the offset saved
by the last `ftell`, `pos` the offset of the stream, `lines` what is left to
read. `fgetspent` passes over the lines it cannot parse (the stream advances,
`cur_pos` does not). On the first record whose name has the length of `user`
and compares equal under `strncmp`, the record with `sp_pwdp` replaced is
written at `cur_pos`; the result is then the new content of the file, and
`none` when no record matches. -/
def store_scan (user newpass : CStr) (data : List Char) :
    Nat → Nat → List (List Char) → Option (List Char)
  | _, _, [] => none
  | cur_pos, pos, l :: ls =>
      match parse_line l with
      | none => store_scan user newpass data cur_pos (pos + l.length) ls
      | some cur_user =>
          let uname_len := strlen user
          let cur_uname_len := strlen cur_user.sp_namp
          if cur_uname_len = uname_len ∧ strncmp cur_user.sp_namp user (strlen user) = 0 then
            match putspent { cur_user with sp_pwdp := some newpass } with
            | some bytes => some (fwrite_at data cur_pos bytes)
            | none => some data
          else store_scan user newpass data (pos + l.length) (pos + l.length) ls

/-- The function `store_password (user, pass)`, lines 282-338: the value returned and the
state of the system on return; `none` when `pass` does not fit the buffer
`newpass[512]` with its terminator, which the code does not check. -/
def store_password (E : Consts) (user pass : CStr) (s : Sys) : Option (Int × Sys) :=
  if 512 ≤ strlen pass then none
  else
    if ¬ s.lock_ok then some (E.PASSWD_ERR_FATAL, s)
    else
      let s1 := { s with locked := true }
      if ¬ s1.open_ok then some (E.PASSWD_ERR_FATAL, s1)
      else
        let s2 := { s1 with open_files := s1.open_files + 1 }
        match store_scan user pass s2.shadow 0 0 (readLines s2.shadow) with
        | some data =>
            some (E.PASSWD_ERR_SUCCESS,
              { s2 with shadow := data, locked := false, open_files := s2.open_files - 1 })
        | none =>
            some (E.PASSWD_ERR_PASSWD_UPD_FAIL,
              { s2 with locked := false, open_files := s2.open_files - 1 })

/-! ## Authorization checker, account provisioner and request dispatcher -/

/-- The fields of the request message (`client->msg`) that the code reads. -/
structure passwd_msg where
  op_code : Int
  username : CStr
  oldpasswd : CStr
  newpasswd : CStr
  file_path : CStr
  deriving DecidableEq, Repr

/-- The fields of `passwd_client_t` that the code reads and writes. -/
structure passwd_client_t where
  msg : passwd_msg
  passwd : Option spwd
  deriving DecidableEq, Repr

/-- What the code obtains from outside the process. -/
structure Env where
  /-- The owning uid `stat` reports for a path, `none` when `stat` fails. -/
  stat : CStr → Option Nat
  /-- The account name `getpwuid` finds for a uid, `none` for NULL. -/
  getpwuid : Nat → Option CStr
  /-- The C library `crypt (key, salt)`, `none` for NULL. -/
  crypt : CStr → CStr → Option CStr
  /-- The C library `system (command)`: its return value and its effect on
  the shadow store. -/
  system : CStr → Sys → Int × Sys
  /-- The lines of `login.defs`, `none` when it cannot be opened. -/
  login_defs : Option (List CStr)
  /-- The strings of the macros `USERADD`, `USERDEL`, `NETOP_GROUP`,
  `OVSDB_GROUP` and `VTYSH_PROMPT` of the missing header. -/
  USERADD : CStr
  USERDEL : CStr
  NETOP_GROUP : CStr
  OVSDB_GROUP : CStr
  VTYSH_PROMPT : CStr

/-- The mutable state of the process and of the host. -/
structure World where
  sys : Sys
  /-- The static `crypt_method`. -/
  crypt_method : Option CStr

/-- The function `validate_user (sockaddr, client)`, lines 381-415. `c_stat` is zeroed
before `stat` is called and the result of `stat` is not examined, so a failed
`stat` leaves `st_uid` at `0`. -/
def validate_user (E : Consts) (env : Env) (client : Option passwd_client_t) : Int :=
  match client with
  | none => E.PASSWD_ERR_INVALID_USER
  | some client =>
      let st_uid : Nat :=
        match env.stat client.msg.file_path with
        | some uid => uid
        | none => 0
      match env.getpwuid st_uid with
      | none => E.PASSWD_ERR_INVALID_USER
      | some pw_name =>
          if strncmp pw_name client.msg.username (strlen client.msg.username) = 0 then 0
          else if strncmp pw_name "ops".toList (strlen "ops".toList) = 0 then 0
          else E.PASSWD_ERR_INVALID_USER

/-- The function `validate_password (client)`, lines 423-441, for a client whose `passwd`
is the entry `entry`; `none` when `sp_pwdp` is NULL, which the code hands to
`crypt` and `strlen` unchecked. -/
def validate_password (E : Consts) (env : Env) (client : passwd_client_t) (entry : spwd) :
    Option Int :=
  match entry.sp_pwdp with
  | none => none
  | some sp_pwdp =>
      match env.crypt client.msg.oldpasswd sp_pwdp with
      | none => some E.PASSWD_ERR_FATAL
      | some crypt_str =>
          if strncmp crypt_str sp_pwdp (strlen sp_pwdp) ≠ 0 then some E.PASSWD_ERR_FATAL
          else some 0

/-- The function `create_user (username, useradd)`, lines 148-180: the entry returned
(`none` is NULL) and the state on return. The command line is built with
`snprintf` in a buffer of 512 bytes. -/
def create_user (env : Env) (username : CStr) (useradd : Bool) (s : Sys) : Option spwd × Sys :=
  let useradd_comm : CStr :=
    if useradd then
      (env.USERADD ++ " -g ".toList ++ env.NETOP_GROUP ++ " -G ".toList ++ env.OVSDB_GROUP ++
        " -s ".toList ++ env.VTYSH_PROMPT ++ " ".toList ++ username).take 511
    else (env.USERDEL ++ " ".toList ++ username).take 511
  let (status, s1) := env.system useradd_comm s
  if 0 > status then (none, s1)
  else if useradd then find_password_info (some username) s1
  else (none, s1)

/-- The function `create_and_store_password (client)`, lines 346-371. -/
def create_and_store_password (E : Consts) (env : Env) (client : Option passwd_client_t)
    (w : World) (rnd : List Nat) : Outcome (Int × World) :=
  match client with
  | none => .ret (E.PASSWD_ERR_INVALID_PARAM, w)
  | some client =>
      match client.passwd with
      | none => .ret (E.PASSWD_ERR_INVALID_PARAM, w)
      | some _ =>
          match create_new_salt w.crypt_method env.login_defs rnd with
          | (method, .ret (some salt)) =>
              match env.crypt client.msg.newpasswd salt with
              | none => .undefined
              | some newpassword =>
                  match store_password E client.msg.username newpassword w.sys with
                  | none => .undefined
                  | some (err, s1) => .ret (err, { sys := s1, crypt_method := method })
          | (_, .ret none) => .undefined
          | (_, .undefined) => .undefined
          | (_, .starved) => .starved

/-- The function `process_client_request (client)`, lines 510-601: the value returned, the
client structure and the state on return. -/
def process_client_request (E : Consts) (env : Env) (client : Option passwd_client_t)
    (w : World) (rnd : List Nat) : Outcome (Int × Option passwd_client_t × World) :=
  match client with
  | none => .ret (-1, none, w)
  | some client =>
      if client.msg.op_code = E.PASSWD_MSG_CHG_PASSWORD then
        match find_password_info (some client.msg.username) w.sys with
        | (none, s1) =>
            .ret (E.PASSWD_ERR_USER_NOT_FOUND, some { client with passwd := none },
              { w with sys := s1 })
        | (some entry, s1) =>
            let client1 := { client with passwd := some entry }
            match validate_password E env client1 entry with
            | none => .undefined
            | some valid =>
                if valid ≠ 0 then
                  .ret (E.PASSWD_ERR_PASSWORD_NOT_MATCH, some client1, { w with sys := s1 })
                else
                  match create_and_store_password E env (some client1) { w with sys := s1 }
                      rnd with
                  | .ret (error, w1) => .ret (error, some client1, w1)
                  | .undefined => .undefined
                  | .starved => .starved
      else if client.msg.op_code = E.PASSWD_MSG_ADD_USER then
        match find_password_info (some client.msg.username) w.sys with
        | (some entry, s1) =>
            .ret (E.PASSWD_ERR_USER_EXIST, some { client with passwd := some entry },
              { w with sys := s1 })
        | (none, s1) =>
            match create_user env client.msg.username true s1 with
            | (none, s2) =>
                .ret (E.PASSWD_ERR_USERADD_FAILED, some { client with passwd := none },
                  { w with sys := s2 })
            | (some entry, s2) =>
                let client1 := { client with passwd := some entry }
                match create_and_store_password E env (some client1) { w with sys := s2 } rnd with
                | .ret (error, w1) =>
                    if error = E.PASSWD_ERR_SUCCESS then .ret (error, some client1, w1)
                    else
                      .ret (error, some client1,
                        { w1 with sys := (create_user env client.msg.username false w1.sys).2 })
                | .undefined => .undefined
                | .starved => .starved
      else if client.msg.op_code = E.PASSWD_MSG_DEL_USER then
        match find_password_info (some client.msg.username) w.sys with
        | (none, s1) =>
            .ret (E.PASSWD_ERR_USER_NOT_FOUND, some { client with passwd := none },
              { w with sys := s1 })
        | (some _, s1) =>
            match create_user env client.msg.username false s1 with
            | (some entry, s2) =>
                .ret (E.PASSWD_ERR_USERDEL_FAILED, some { client with passwd := some entry },
                  { w with sys := s2 })
            | (none, s2) =>
                .ret (E.PASSWD_ERR_SUCCESS, some { client with passwd := none },
                  { w with sys := s2 })
      else .ret (E.PASSWD_ERR_INVALID_OPCODE, some client, w)

/-! ## Concrete inputs used in the statements below -/

/-- A shadow file with two records. -/
def shadow_two : List Char :=
  "alice:ab:16000:0:99999:7:::\nbob:cd:16001:0:99999:7:::\n".toList

/-- A shadow file whose record holds the day count 2147483648, which
`fgetspent` reads as `-2147483648`. -/
def shadow_wrapped : List Char := "bob:cd:2147483648:0:99999:7:::\n".toList

/-- A string of 512 characters. -/
def long_hash : CStr := List.replicate 512 'a'

/-- A system in which the lock and the shadow file are available and nothing
is held or open yet. -/
def idle (shadow : List Char) : Sys :=
  { shadow := shadow, lock_ok := true, open_ok := true, locked := false, open_files := 0 }

/-- An `userdel` that exits with status 1 (`system` returns 256) and leaves
the shadow store as it is. -/
def failing_command (_ : CStr) (s : Sys) : Int × Sys := (256, s)

/-- An environment in which every path belongs to uid 1000, that uid is the
account `owner`, and external commands behave as `system`. -/
def host (owner : CStr) (system : CStr → Sys → Int × Sys) : Env :=
  { stat := fun _ => some 1000
    getpwuid := fun uid => if uid = 1000 then some owner else none
    crypt := fun key salt => some (salt ++ key)
    system := system
    login_defs := none
    USERADD := "/usr/sbin/useradd".toList
    USERDEL := "/usr/sbin/userdel".toList
    NETOP_GROUP := "ops_netop".toList
    OVSDB_GROUP := "ovsdb-client".toList
    VTYSH_PROMPT := "/usr/bin/vtysh".toList }

/-- A request with the given operation code and user name. -/
def request (op_code : Int) (username : CStr) : passwd_client_t :=
  { msg := { op_code := op_code, username := username, oldpasswd := [], newpasswd := [],
             file_path := "/tmp/client".toList },
    passwd := none }

/-! ## Predicates used in the statements and proofs -/

/-- The values of a `long` field that `putspent` writes in a form that
`fgetspent` reads back as the same value: `-1` (written as the empty field)
and the numbers from `0` to `2^31 - 1`. -/
def FieldRange (v : Int) : Prop := -1 ≤ v ∧ v < 2 ^ 31

/-- What `parse_line` guarantees of the name of a record: no NUL, no colon,
no newline, and a first character that is neither blank nor `#`. -/
def NameOK (n : CStr) : Prop :=
  Char.ofNat 0 ∉ n ∧ ':' ∉ n ∧ '\n' ∉ n ∧ ∀ c cs, n = c :: cs → isspace c = false ∧ c ≠ '#'

/-- What `parse_line` guarantees of a record: a name as described by `NameOK`,
`long` fields that fit an `int`, and a flag that is `~0ul` or fits 32 bits. -/
structure RecordOK (r : spwd) : Prop where
  name : NameOK r.sp_namp
  lstchg : r.sp_lstchg < 2 ^ 31
  min : r.sp_min < 2 ^ 31
  max : r.sp_max < 2 ^ 31
  warn : r.sp_warn < 2 ^ 31
  inact : r.sp_inact < 2 ^ 31
  expire : r.sp_expire < 2 ^ 31
  flag : r.sp_flag = 2 ^ 64 - 1 ∨ r.sp_flag ≤ UINT_MAX

/-- No `long` field of the record is below `-1`. (`fgetspent` reads a numeral
from 2147483648 to 4294967294 as a number below `-1`; `putspent` writes such a
number with a minus sign, which `fgetspent` does not accept.) -/
def NoWrappedField (r : spwd) : Prop :=
  -1 ≤ r.sp_lstchg ∧ -1 ≤ r.sp_min ∧ -1 ≤ r.sp_max ∧ -1 ≤ r.sp_warn ∧ -1 ≤ r.sp_inact ∧
    -1 ≤ r.sp_expire

/-- A line that ends in a newline and contains no other. -/
def TermLine (l : List Char) : Prop := ∃ body, l = body ++ ['\n'] ∧ '\n' ∉ body

/-- Every line but the last is terminated by its newline. -/
def LinesOK : List (List Char) → Prop
  | [] => True
  | l :: ls => (ls ≠ [] → TermLine l) ∧ LinesOK ls

/-- The first record named `user` among the records that the lines hold. -/
def firstNamed (user : CStr) (lines : List (List Char)) : Option spwd :=
  (lines.filterMap parse_line).find? (fun q => decide (q.sp_namp = user))

/-! # Properties

## Auxiliary lemmas

### String comparison -/

theorem char_toNat_inj {x y : Char} (h : x.toNat = y.toNat) : x = y := by
  apply Char.ext
  apply UInt32.ext
  exact h

theorem char_toNat_eq_zero {x : Char} (h : x.toNat = 0) : x = Char.ofNat 0 :=
  char_toNat_inj (by simpa using h)

theorem char_sub_ne_zero {x y : Char} (h : x ≠ y) : (x.toNat : Int) - (y.toNat : Int) ≠ 0 := by
  intro h0
  apply h
  apply char_toNat_inj
  omega

theorem memcmp_max_iff (a : CStr) : ∀ (b : CStr), Char.ofNat 0 ∉ a → Char.ofNat 0 ∉ b →
    (memcmp a b (max a.length b.length) = some 0 ↔ a = b) := by
  induction a with
  | nil =>
    intro b _ hb
    cases b with
    | nil => simp [memcmp]
    | cons y ys =>
      have hy : y.toNat ≠ 0 := fun h0 => hb (by rw [← char_toNat_eq_zero h0]; simp)
      simp only [List.length_nil, List.length_cons, zero_le, max_eq_right, memcmp, if_neg hy]
      simp
      omega
  | cons x xs ih =>
    intro b ha hb
    cases b with
    | nil =>
      have hx : x.toNat ≠ 0 := fun h0 => ha (by rw [← char_toNat_eq_zero h0]; simp)
      simp only [List.length_nil, List.length_cons, zero_le, max_eq_left, memcmp, if_neg hx]
      simp
      omega
    | cons y ys =>
      have hm : max (x :: xs).length (y :: ys).length = max xs.length ys.length + 1 := by
        simp only [List.length_cons]; omega
      rw [hm]
      simp only [memcmp]
      by_cases hxy : x = y
      · subst hxy
        simp only [if_true, List.cons.injEq, true_and]
        exact ih ys (fun h => ha (List.mem_cons_of_mem _ h)) (fun h => hb (List.mem_cons_of_mem _ h))
      · rw [if_neg hxy]
        simp only [Option.some.injEq, List.cons.injEq, hxy, false_and, iff_false]
        exact char_sub_ne_zero hxy

/-- For C strings the `memcmp` of `find_password_info` never has to read
behind a terminator. -/
theorem memcmp_max_defined (a : CStr) : ∀ (b : CStr), Char.ofNat 0 ∉ a → Char.ofNat 0 ∉ b →
    ∃ d, memcmp a b (max a.length b.length) = some d := by
  induction a with
  | nil =>
    intro b _ hb
    cases b with
    | nil => exact ⟨0, by simp [memcmp]⟩
    | cons y ys =>
      have hy : y.toNat ≠ 0 := fun h0 => hb (by rw [← char_toNat_eq_zero h0]; simp)
      refine ⟨0 - (y.toNat : Int), ?_⟩
      simp only [List.length_nil, List.length_cons, zero_le, max_eq_right, memcmp, if_neg hy]
  | cons x xs ih =>
    intro b ha hb
    cases b with
    | nil =>
      have hx : x.toNat ≠ 0 := fun h0 => ha (by rw [← char_toNat_eq_zero h0]; simp)
      refine ⟨(x.toNat : Int), ?_⟩
      simp only [List.length_nil, List.length_cons, zero_le, max_eq_left, memcmp, if_neg hx]
    | cons y ys =>
      have hm : max (x :: xs).length (y :: ys).length = max xs.length ys.length + 1 := by
        simp only [List.length_cons]; omega
      rw [hm]
      simp only [memcmp]
      by_cases hxy : x = y
      · rw [if_pos hxy]
        exact ih ys (fun h => ha (List.mem_cons_of_mem _ h)) (fun h => hb (List.mem_cons_of_mem _ h))
      · rw [if_neg hxy]
        exact ⟨_, rfl⟩

theorem strncmp_len_iff (a : CStr) : ∀ (b : CStr),
    (a.length = b.length ∧ strncmp a b b.length = 0) ↔ a = b := by
  induction a with
  | nil =>
    intro b
    cases b with
    | nil => simp [strncmp]
    | cons y ys => simp
  | cons x xs ih =>
    intro b
    cases b with
    | nil => simp
    | cons y ys =>
      simp only [List.length_cons, strncmp, add_left_inj, List.cons.injEq]
      by_cases hxy : x = y
      · subst hxy
        simp only [if_true, true_and]
        exact ih ys
      · rw [if_neg hxy]
        simp only [hxy, false_and, iff_false, not_and]
        intro _
        exact char_sub_ne_zero hxy


/-! ### Decimal numerals and the fields of a record -/

theorem digit_char_facts (d : Nat) (h : d < 10) :
    (Char.ofNat (48 + d)).isDigit = true ∧ digitVal (Char.ofNat (48 + d)) = d := by
  interval_cases d <;> exact ⟨by decide, by decide⟩

theorem decValue_append_single (s : List Char) (c : Char) :
    decValue (s ++ [c]) = 10 * decValue s + digitVal c := by
  simp [decValue, List.foldl_append]

theorem decDigits_spec (fuel : Nat) : ∀ n, n < fuel →
    decDigits fuel n ≠ [] ∧ (decDigits fuel n).all Char.isDigit = true ∧
      decValue (decDigits fuel n) = n := by
  induction fuel with
  | zero => intro n h; omega
  | succ k ih =>
    intro n hn
    unfold decDigits
    split
    · next h10 =>
      obtain ⟨h1, h2⟩ := digit_char_facts n h10
      refine ⟨by simp, by simp [h1], ?_⟩
      simp [decValue, h2]
    · next h10 =>
      have hk : n / 10 < k := by omega
      obtain ⟨_, i2, i3⟩ := ih (n / 10) hk
      obtain ⟨h1, h2⟩ := digit_char_facts (n % 10) (Nat.mod_lt _ (by decide))
      refine ⟨by simp, ?_, ?_⟩
      · rw [List.all_append, i2]
        simp [h1]
      · rw [decValue_append_single, i3, h2]
        omega

theorem isDigit_ne_colon {c : Char} (h : c.isDigit = true) : c ≠ ':' := by
  rintro rfl
  exact absurd h (by decide)

theorem isDigit_ne_newline {c : Char} (h : c.isDigit = true) : c ≠ '\n' := by
  rintro rfl
  exact absurd h (by decide)

theorem isDigit_ne_nul {c : Char} (h : c.isDigit = true) : c ≠ Char.ofNat 0 := by
  rintro rfl
  exact absurd h (by decide)

/-! ### Reading a numeric field -/

theorem isDigit_not_space {c : Char} (h : c.isDigit = true) : isspace c = false := by
  have h1 : 48 ≤ c.toNat ∧ c.toNat ≤ 57 := by
    simp only [Char.isDigit, Bool.and_eq_true, decide_eq_true_eq] at h
    exact ⟨h.1, h.2⟩
  have ne : ∀ d : Char, (d.toNat < 48 ∨ 57 < d.toNat) → c ≠ d := by
    rintro d hd rfl
    omega
  simp only [isspace, Bool.or_eq_false_iff, decide_eq_false_iff_not]
  exact ⟨⟨⟨⟨⟨ne _ (by decide), ne _ (by decide)⟩, ne _ (by decide)⟩, ne _ (by decide)⟩,
    ne _ (by decide)⟩, ne _ (by decide)⟩

theorem isDigit_not_sign {c : Char} (h : c.isDigit = true) : c ≠ '-' ∧ c ≠ '+' := by
  constructor <;>
  · rintro rfl
    exact absurd h (by decide)

theorem takeWhile_all_append (p : Char → Bool) (a rest : List Char) (ha : ∀ x ∈ a, p x = true)
    (hrest : ∀ c r, rest = c :: r → p c = false) :
    (a ++ rest).takeWhile p = a ∧ (a ++ rest).dropWhile p = rest := by
  induction a with
  | nil =>
    cases rest with
    | nil => simp
    | cons c r =>
      have := hrest c r rfl
      simp [List.takeWhile_cons, List.dropWhile_cons, this]
  | cons x xs ih =>
    have hx := ha x (List.mem_cons_self _ _)
    obtain ⟨i1, i2⟩ := ih (fun y hy => ha y (List.mem_cons_of_mem _ hy))
    constructor
    · rw [List.cons_append, List.takeWhile_cons, hx, if_pos rfl, i1]
    · rw [List.cons_append, List.dropWhile_cons, hx, if_pos rfl, i2]

/-- The function `strtoull` on a numeral that fits 64 bits and is followed by something
that is not a digit. -/
theorem strtoull_digits (ds rest : List Char) (hne : ds ≠ [])
    (hall : ∀ c ∈ ds, c.isDigit = true) (hrest : ∀ c r, rest = c :: r → c.isDigit = false)
    (hv : decValue ds < 2 ^ 64) :
    strtoull (ds ++ rest) = some (decValue ds, rest) := by
  cases ds with
  | nil => exact absurd rfl hne
  | cons d ds1 =>
    have hd := hall d (List.mem_cons_self _ _)
    have hsp : isspace d = false := isDigit_not_space hd
    obtain ⟨hm, hp⟩ := isDigit_not_sign hd
    obtain ⟨t1, t2⟩ := takeWhile_all_append Char.isDigit (d :: ds1) rest hall hrest
    have hdrop : ((d :: ds1) ++ rest).dropWhile isspace = (d :: ds1) ++ rest := by
      rw [List.cons_append, List.dropWhile_cons, hsp]
      simp
    have hhead : ((d :: ds1) ++ rest).head? = some d := rfl
    have hv' : ¬ 2 ^ 64 ≤ decValue (d :: ds1) := by omega
    unfold strtoull
    simp only [hdrop, hhead, Option.some.injEq, hm, hp, or_self, if_false, t1, t2,
      decide_False, Bool.false_eq_true, reduceCtorEq, if_neg hv']

theorem strtoull_no_digit (c : Char) (rest : List Char) (hsp : isspace c = false)
    (hm : c ≠ '-') (hp : c ≠ '+') (hd : c.isDigit = false) : strtoull (c :: rest) = none := by
  have hdrop : (c :: rest).dropWhile isspace = c :: rest := by
    rw [List.dropWhile_cons, hsp]
    simp
  unfold strtoull
  simp only [hdrop, List.head?_cons, Option.some.injEq, hm, hp, or_self, if_false,
    List.takeWhile_cons, hd, Bool.false_eq_true, if_true]

/-- An empty field before a colon reads as the default value. -/
theorem int_field_empty (rest : List Char) : int_field true (':' :: rest) = some (none, rest) := by
  have h := strtoull_no_digit ':' rest (by decide) (by decide) (by decide) (by decide)
  simp only [int_field, h, int_field_end, Bool.true_and, decide_True, if_true]

theorem decDigits_shape (n : Nat) :
    ∃ d ds, decDigits (n + 1) n = d :: ds ∧ d.isDigit = true ∧
      (∀ c ∈ d :: ds, c.isDigit = true) ∧ decValue (d :: ds) = n := by
  obtain ⟨h1, h2, h3⟩ := decDigits_spec (n + 1) n (by omega)
  cases hds : decDigits (n + 1) n with
  | nil => exact absurd hds h1
  | cons d ds =>
    rw [hds] at h2 h3
    rw [List.all_eq_true] at h2
    exact ⟨d, ds, rfl, h2 d (List.mem_cons_self _ _), h2, h3⟩

/-- A numeral of a number that fits 32 bits, before a colon, reads as that
number. -/
theorem int_field_digits_colon (n : Nat) (hn : n ≤ UINT_MAX) (rest : List Char) :
    int_field true (decDigits (n + 1) n ++ ':' :: rest) = some (some n, rest) := by
  obtain ⟨d, ds, hds, _, hall, hval⟩ := decDigits_shape n
  have hlt : decValue (d :: ds) < 2 ^ 64 := by rw [hval]; simp only [UINT_MAX] at hn; omega
  have h := strtoull_digits (d :: ds) (':' :: rest) (by simp) hall
    (by intro c r hc; simp only [List.cons.injEq] at hc; rw [← hc.1]; decide) hlt
  rw [hds]
  rw [List.cons_append] at h ⊢
  simp only [int_field, h, hval, not_lt.mpr hn, if_false, int_field_end, Bool.true_and,
    decide_True, if_true]

/-- A numeral of a number that fits 32 bits, at the end of the line, reads as
that number. -/
theorem int_field_digits_end (n : Nat) (hn : n ≤ UINT_MAX) :
    ∃ c cs, decDigits (n + 1) n = c :: cs ∧ int_field false (c :: cs) = some (some n, []) := by
  obtain ⟨d, ds, hds, _, hall, hval⟩ := decDigits_shape n
  have hlt : decValue (d :: ds) < 2 ^ 64 := by rw [hval]; simp only [UINT_MAX] at hn; omega
  have h := strtoull_digits (d :: ds) [] (by simp) hall (by intro c r hc; cases hc) hlt
  refine ⟨d, ds, hds, ?_⟩
  rw [List.append_nil] at h
  simp only [int_field, h, hval, not_lt.mpr hn, if_false, int_field_end]

/-- What `int_field` returns fits 32 bits. -/
theorem int_field_le {colon : Bool} {line rest : List Char} {t : Nat}
    (h : int_field colon line = some (some t, rest)) : t ≤ UINT_MAX := by
  unfold int_field at h
  split at h
  · cases h
  · split at h
    · next tmp endp _ =>
      split at h
      · cases h
      · next hle =>
        have : ∀ e, int_field_end colon (some tmp) e = some (some t, rest) → tmp = t := by
          intro e he
          unfold int_field_end at he
          split at he
          · simp only [Option.some.injEq, Prod.mk.injEq] at he; exact he.1
          · split at he
            · simp only [Option.some.injEq, Prod.mk.injEq] at he; exact he.1
            · cases he
        rw [← this _ h]
        omega
    · have : ∀ e, int_field_end colon none e ≠ some (some t, rest) := by
        intro e he
        unfold int_field_end at he
        split at he
        · simp at he
        · split at he
          · simp at he
          · cases he
      exact absurd h (this _)

theorem to_long_lt {colon : Bool} {line rest : List Char} {x : Option Nat}
    (h : int_field colon line = some (x, rest)) : to_long x < 2 ^ 31 := by
  cases x with
  | none => simp [to_long]
  | some t =>
    have := int_field_le h
    simp only [UINT_MAX] at this
    simp only [to_long]
    split <;> omega

theorem to_ulong_ok {colon : Bool} {line rest : List Char} {x : Option Nat}
    (h : int_field colon line = some (x, rest)) :
    to_ulong x = 2 ^ 64 - 1 ∨ to_ulong x ≤ UINT_MAX := by
  cases x with
  | none => left; rfl
  | some t => right; exact int_field_le h

/-! ### What the line parser returns -/

/-- The name of a record is the text of the line up to its first colon, and
its numbers are within the ranges of `RecordOK`. -/
theorem parse_body_inv {line : List Char} {r : spwd} (h : parse_body line = some r) :
    r.sp_namp = line.takeWhile (fun x => x ≠ ':') ∧
      r.sp_lstchg < 2 ^ 31 ∧ r.sp_min < 2 ^ 31 ∧ r.sp_max < 2 ^ 31 ∧ r.sp_warn < 2 ^ 31 ∧
      r.sp_inact < 2 ^ 31 ∧ r.sp_expire < 2 ^ 31 ∧
      (r.sp_flag = 2 ^ 64 - 1 ∨ r.sp_flag ≤ UINT_MAX) := by
  unfold parse_body at h
  dsimp only at h
  split at h
  · simp only [Option.some.injEq] at h
    subst h
    refine ⟨rfl, ?_, ?_, ?_, ?_, ?_, ?_, Or.inl rfl⟩ <;> (dsimp only; decide)
  · split at h
    · cases h
    · next h3 =>
      split at h
      · cases h
      · next h4 =>
        split at h
        · cases h
        · next h5 =>
          split at h
          · simp only [Option.some.injEq] at h
            subst h
            refine ⟨rfl, to_long_lt h3, to_long_lt h4, to_long_lt h5, ?_, ?_, ?_, Or.inl rfl⟩ <;>
              (dsimp only; decide)
          · split at h
            · cases h
            · next h6 =>
              split at h
              · cases h
              · next h7 =>
                split at h
                · cases h
                · next h8 =>
                  split at h
                  · simp only [Option.some.injEq] at h
                    subst h
                    exact ⟨rfl, to_long_lt h3, to_long_lt h4, to_long_lt h5, to_long_lt h6,
                      to_long_lt h7, to_long_lt h8, Or.inl rfl⟩
                  · split at h
                    · cases h
                    · next h9 =>
                      simp only [Option.some.injEq] at h
                      subst h
                      exact ⟨rfl, to_long_lt h3, to_long_lt h4, to_long_lt h5, to_long_lt h6,
                        to_long_lt h7, to_long_lt h8, to_ulong_ok h9⟩

theorem dropWhile_length_eq (p : Char → Bool) (s : List Char)
    (h : (s.dropWhile p).length = s.length) : s.dropWhile p = s := by
  cases s with
  | nil => rfl
  | cons x xs =>
    rw [List.dropWhile_cons] at h ⊢
    split
    · next hx =>
      rw [if_pos hx] at h
      have := (List.dropWhile_sublist p (l := xs)).length_le
      simp only [List.length_cons] at h
      omega
    · rfl

theorem dropWhile_head_false (p : Char → Bool) (l : List Char) (c : Char) (cs : List Char)
    (h : l.dropWhile p = c :: cs) : p c = false := by
  induction l with
  | nil => simp at h
  | cons x xs ih =>
    rw [List.dropWhile_cons] at h
    split at h
    · exact ih h
    · next hx =>
      simp only [List.cons.injEq] at h
      rw [← h.1]
      simpa using hx

theorem takeWhile_head (p : Char → Bool) (c x : Char) (cs t : List Char)
    (h : (c :: cs).takeWhile p = x :: t) : x = c := by
  rw [List.takeWhile_cons] at h
  split at h
  · simp only [List.cons.injEq] at h; exact h.1.symm
  · cases h

/-- The buffer handed to the parser holds characters of the line before its
first NUL, and begins with the first character of the line that is not blank. -/
theorem line_buffer_spec (line : List Char) (c : Char) (cs : List Char)
    (h : (line.takeWhile (fun x => x ≠ Char.ofNat 0)).dropWhile isspace = c :: cs) :
    (∃ t, line_buffer line = c :: t) ∧ ∀ x ∈ line_buffer line, x ≠ Char.ofNat 0 := by
  have hs : ∀ x ∈ line.takeWhile (fun x => x ≠ Char.ofNat 0), x ≠ Char.ofNat 0 := by
    intro x hx
    simpa using List.mem_takeWhile_imp hx
  have hp : ∀ x ∈ c :: cs, x ≠ Char.ofNat 0 := by
    intro x hx
    rw [← h] at hx
    exact hs x ((List.dropWhile_sublist _).subset hx)
  unfold line_buffer
  dsimp only
  split
  · next hlen =>
    have := dropWhile_length_eq _ _ hlen
    rw [h] at this
    exact ⟨⟨cs, this.symm⟩, hs⟩
  · rw [h]
    refine ⟨⟨cs ++ _, rfl⟩, ?_⟩
    intro x hx
    rcases List.mem_append.mp hx with hx | hx
    · exact hp x hx
    · exact hs x ((List.drop_sublist _ _).subset hx)

theorem parse_line_body {line : List Char} {r : spwd} (h : parse_line line = some r) :
    ∃ c cs, (line.takeWhile (fun x => x ≠ Char.ofNat 0)).dropWhile isspace = c :: cs ∧
      c ≠ '#' ∧ parse_body ((line_buffer line).takeWhile (fun x => x ≠ '\n')) = some r := by
  unfold parse_line at h
  split at h
  · cases h
  · next c cs hd =>
    split at h
    · cases h
    · next hc => exact ⟨c, cs, hd, hc, h⟩

/-- What `parse_line` guarantees of a record. -/
theorem parse_line_ok {line : List Char} {r : spwd} (h : parse_line line = some r) :
    RecordOK r := by
  obtain ⟨c, cs, hd, hc, hb⟩ := parse_line_body h
  obtain ⟨hname, h3, h4, h5, h6, h7, h8, h9⟩ := parse_body_inv hb
  obtain ⟨⟨t, ht⟩, hnul⟩ := line_buffer_spec line c cs hd
  have hsub : ∀ x ∈ r.sp_namp, x ∈ line_buffer line ∧ x ≠ '\n' ∧ x ≠ ':' := by
    intro x hx
    rw [hname] at hx
    have h1 := List.mem_takeWhile_imp hx
    have h2 := (List.takeWhile_sublist _).subset hx
    have h3 := List.mem_takeWhile_imp h2
    have h4 := (List.takeWhile_sublist _).subset h2
    simp only [ne_eq, decide_not, Bool.not_eq_true', decide_eq_false_iff_not] at h1 h3
    exact ⟨h4, h3, h1⟩
  refine ⟨⟨?_, ?_, ?_, ?_⟩, h3, h4, h5, h6, h7, h8, h9⟩
  · intro hx; exact hnul _ (hsub _ hx).1 rfl
  · intro hx; exact (hsub _ hx).2.2 rfl
  · intro hx; exact (hsub _ hx).2.1 rfl
  · intro x xs hx
    rw [hname, ht] at hx
    cases hcut : List.takeWhile (fun x => decide (x ≠ '\n')) (c :: t) with
    | nil => rw [hcut] at hx; simp at hx
    | cons y ys =>
      rw [hcut] at hx
      have hy : y = c := takeWhile_head _ _ _ _ _ hcut
      have hxy : x = y := takeWhile_head _ _ _ _ _ hx
      rw [hxy, hy]
      exact ⟨dropWhile_head_false _ _ _ _ hd, hc⟩

theorem parse_line_name_nul {line : List Char} {r : spwd} (h : parse_line line = some r) :
    Char.ofNat 0 ∉ r.sp_namp := (parse_line_ok h).name.1

/-! ### Reading back what `putspent` writes -/

theorem nss_valid_field_iff (s : CStr) : nss_valid_field s = true ↔ ':' ∉ s ∧ '\n' ∉ s := by
  simp [nss_valid_field]

theorem takeWhile_eq_self_of_all (p : Char → Bool) (l : List Char) (h : ∀ x ∈ l, p x = true) :
    l.takeWhile p = l := by
  induction l with
  | nil => rfl
  | cons c cs ih =>
    rw [List.takeWhile_cons, h c (List.mem_cons_self _ _), if_pos rfl,
      ih (fun x hx => h x (List.mem_cons_of_mem _ hx))]

/-- The text up to a character `c` that does not occur before. -/
theorem takeWhile_ne_stop (c : Char) (a rest : List Char) (h : c ∉ a) :
    (a ++ c :: rest).takeWhile (fun x => x ≠ c) = a ∧
      (a ++ c :: rest).dropWhile (fun x => x ≠ c) = c :: rest := by
  apply takeWhile_all_append
  · intro x hx
    simp only [ne_eq, decide_not, Bool.not_eq_true', decide_eq_false_iff_not]
    rintro rfl
    exact h hx
  · intro d r hd
    simp only [List.cons.injEq] at hd
    rw [← hd.1]
    simp

theorem put_field_digits {v : Int} (hv : FieldRange v) :
    ∀ c ∈ put_field v, c.isDigit = true := by
  intro c hc
  unfold put_field at hc
  split at hc
  · simp at hc
  · have hnn : ¬ v < 0 := by have := hv.1; omega
    simp only [fmt_ld, if_neg hnn] at hc
    have := (decDigits_spec (v.toNat + 1) v.toNat (by omega)).2.1
    rw [List.all_eq_true] at this
    exact this c hc

/-- A `long` field written by `putspent`, with the colon behind it, reads
back as the same value. -/
theorem int_field_put_field {v : Int} (hv : FieldRange v) (rest : List Char) :
    ∃ x, int_field true (put_field v ++ ':' :: rest) = some (x, rest) ∧ to_long x = v := by
  by_cases h1 : v = -1
  · refine ⟨none, ?_, ?_⟩
    · simp only [put_field, if_pos h1, List.nil_append, int_field_empty]
    · simp [to_long, h1]
  · obtain ⟨hlo, hhi⟩ := hv
    have hnn : ¬ v < 0 := by omega
    have hle : v.toNat ≤ UINT_MAX := by simp only [UINT_MAX]; omega
    refine ⟨some v.toNat, ?_, ?_⟩
    · simp only [put_field, if_neg h1, fmt_ld, if_neg hnn]
      exact int_field_digits_colon v.toNat hle rest
    · have : v.toNat < 2 ^ 31 := by omega
      simp only [to_long, if_pos this]
      omega

/-- The text written for a `long` field, with its colon, does not begin with
a blank. -/
theorem put_field_colon_head {v : Int} (hv : FieldRange v) (rest : List Char) :
    ∃ c cs, put_field v ++ ':' :: rest = c :: cs ∧ isspace c = false := by
  cases hp : put_field v with
  | nil => exact ⟨':', rest, rfl, by decide⟩
  | cons d ds =>
    refine ⟨d, ds ++ ':' :: rest, rfl, ?_⟩
    exact isDigit_not_space (put_field_digits hv d (by rw [hp]; simp))

/-- The text written for `sp_flag` consists of digits and reads back as the
same value. -/
theorem put_flag_spec {f : Nat} (hf : f = 2 ^ 64 - 1 ∨ f ≤ UINT_MAX) :
    (∀ c ∈ put_flag f, c.isDigit = true) ∧
      ((put_flag f = [] ∧ f = 2 ^ 64 - 1) ∨
        ∃ c cs, put_flag f = c :: cs ∧ int_field false (c :: cs) = some (some f, [])) := by
  by_cases h : f = 2 ^ 64 - 1
  · have hp : put_flag f = [] := by simp only [put_flag, if_pos h]
    exact ⟨by rw [hp]; simp, Or.inl ⟨hp, h⟩⟩
  · have hle : f ≤ UINT_MAX := by
      rcases hf with h1 | h1
      · exact absurd h1 h
      · exact h1
    have h63 : f < 2 ^ 63 := by simp only [UINT_MAX] at hle; omega
    have hnn : ¬ (f : Int) < 0 := by omega
    have hp : put_flag f = decDigits (f + 1) f := by
      simp only [put_flag, if_neg h, if_pos h63, fmt_ld, if_neg hnn, Int.toNat_ofNat]
    constructor
    · intro c hc
      rw [hp] at hc
      have := (decDigits_spec (f + 1) f (by omega)).2.1
      rw [List.all_eq_true] at this
      exact this c hc
    · right
      obtain ⟨c, cs, hcs, hint⟩ := int_field_digits_end f hle
      exact ⟨c, cs, by rw [hp, hcs], hint⟩

/-- The line that `putspent` writes for a record read by `fgetspent` whose
password has been replaced by `H` is read back by `fgetspent` as that record,
provided no `long` field of the record is below `-1`. -/
theorem putspent_roundtrip {r : spwd} (hr : RecordOK r) (hw : NoWrappedField r) (H : CStr)
    (hH0 : Char.ofNat 0 ∉ H) (hH : nss_valid_field H = true) :
    ∃ bytes, putspent { r with sp_pwdp := some H } = some bytes ∧
      parse_line bytes = some { r with sp_pwdp := some H } ∧ TermLine bytes := by
  obtain ⟨⟨hn0, hn1, hn2, hn3⟩, h3u, h4u, h5u, h6u, h7u, h8u, h9⟩ := hr
  obtain ⟨h3l, h4l, h5l, h6l, h7l, h8l⟩ := hw
  have h3 : FieldRange r.sp_lstchg := ⟨h3l, h3u⟩
  have h4 : FieldRange r.sp_min := ⟨h4l, h4u⟩
  have h5 : FieldRange r.sp_max := ⟨h5l, h5u⟩
  have h6 : FieldRange r.sp_warn := ⟨h6l, h6u⟩
  have h7 : FieldRange r.sp_inact := ⟨h7l, h7u⟩
  have h8 : FieldRange r.sp_expire := ⟨h8l, h8u⟩
  obtain ⟨hH1, hH2⟩ := (nss_valid_field_iff H).mp hH
  have hvn : nss_valid_field r.sp_namp = true := (nss_valid_field_iff _).mpr ⟨hn1, hn2⟩
  obtain ⟨hfd, hflag⟩ := put_flag_spec h9
  -- the text of the line
  let t9 : List Char := put_flag r.sp_flag
  let t8 : List Char := put_field r.sp_expire ++ ':' :: t9
  let t7 : List Char := put_field r.sp_inact ++ ':' :: t8
  let t6 : List Char := put_field r.sp_warn ++ ':' :: t7
  let t5 : List Char := put_field r.sp_max ++ ':' :: t6
  let t4 : List Char := put_field r.sp_min ++ ':' :: t5
  let t3 : List Char := put_field r.sp_lstchg ++ ':' :: t4
  let t2 : List Char := H ++ ':' :: t3
  let body : List Char := r.sp_namp ++ ':' :: t2
  have hbytes : putspent { r with sp_pwdp := some H } = some (body ++ ['\n']) := by
    simp only [putspent, hvn, Option.getD_some, hH, Bool.and_self, if_true, body, t2, t3, t4,
      t5, t6, t7, t8, t9, List.append_assoc, List.cons_append]
  -- no character of the line is a NUL, and only the last is a newline
  have clean : ∀ x ∈ body, x ≠ '\n' ∧ x ≠ Char.ofNat 0 := by
    have dg : ∀ {v : Int}, FieldRange v → ∀ x ∈ put_field v, x ≠ '\n' ∧ x ≠ Char.ofNat 0 :=
      fun hv x hx => ⟨isDigit_ne_newline (put_field_digits hv x hx),
        isDigit_ne_nul (put_field_digits hv x hx)⟩
    have colon : (':' : Char) ≠ '\n' ∧ (':' : Char) ≠ Char.ofNat 0 := ⟨by decide, by decide⟩
    intro x hx
    simp only [body, t2, t3, t4, t5, t6, t7, t8, t9, List.mem_append, List.mem_cons] at hx
    rcases hx with hx | rfl | hx | rfl | hx | rfl | hx | rfl | hx | rfl | hx | rfl | hx | rfl |
      hx | rfl | hx
    · exact ⟨fun e => hn2 (e ▸ hx), fun e => hn0 (e ▸ hx)⟩
    · exact colon
    · exact ⟨fun e => hH2 (e ▸ hx), fun e => hH0 (e ▸ hx)⟩
    · exact colon
    · exact dg h3 x hx
    · exact colon
    · exact dg h4 x hx
    · exact colon
    · exact dg h5 x hx
    · exact colon
    · exact dg h6 x hx
    · exact colon
    · exact dg h7 x hx
    · exact colon
    · exact dg h8 x hx
    · exact colon
    · exact ⟨isDigit_ne_newline (hfd x hx), isDigit_ne_nul (hfd x hx)⟩
  have hbody_nl : '\n' ∉ body := fun hx => (clean _ hx).1 rfl
  refine ⟨body ++ ['\n'], hbytes, ?_, ⟨body, rfl, hbody_nl⟩⟩
  -- the line is a C string that starts with a character neither blank nor `#`
  have hwhole : (body ++ ['\n']).takeWhile (fun x => x ≠ Char.ofNat 0) = body ++ ['\n'] := by
    apply takeWhile_eq_self_of_all
    intro x hx
    simp only [ne_eq, decide_not, Bool.not_eq_true', decide_eq_false_iff_not]
    rcases List.mem_append.mp hx with hx | hx
    · exact (clean x hx).2
    · simp only [List.mem_singleton] at hx
      rw [hx]
      decide
  have hstart : ∃ c cs, body ++ ['\n'] = c :: cs ∧ isspace c = false ∧ c ≠ '#' := by
    cases hname : r.sp_namp with
    | nil =>
      exact ⟨':', t2 ++ ['\n'], by simp only [body, hname, List.nil_append, List.cons_append],
        by decide, by decide⟩
    | cons x xs =>
      exact ⟨x, xs ++ ':' :: t2 ++ ['\n'],
        by simp only [body, hname, List.cons_append, List.append_assoc],
        (hn3 x xs hname).1, (hn3 x xs hname).2⟩
  obtain ⟨c, cs, hcs, hsp, hhash⟩ := hstart
  have hdrop : (body ++ ['\n']).dropWhile isspace = c :: cs := by
    rw [hcs, List.dropWhile_cons, hsp]; simp
  have hbuf : line_buffer (body ++ ['\n']) = body ++ ['\n'] := by
    unfold line_buffer
    dsimp only
    rw [hwhole, hdrop, ← hcs, if_pos rfl]
  have hcut : (body ++ ['\n']).takeWhile (fun x => x ≠ '\n') = body :=
    (takeWhile_ne_stop '\n' body [] hbody_nl).1
  -- the fields, one after the other
  obtain ⟨n1, n2⟩ := takeWhile_ne_stop ':' r.sp_namp t2 hn1
  obtain ⟨p1, p2⟩ := takeWhile_ne_stop ':' H t3 hH1
  obtain ⟨x3, e3, v3⟩ := int_field_put_field h3 t4
  obtain ⟨x4, e4, v4⟩ := int_field_put_field h4 t5
  obtain ⟨x5, e5, v5⟩ := int_field_put_field h5 t6
  obtain ⟨x6, e6, v6⟩ := int_field_put_field h6 t7
  obtain ⟨x7, e7, v7⟩ := int_field_put_field h7 t8
  obtain ⟨x8, e8, v8⟩ := int_field_put_field h8 t9
  obtain ⟨c6, cs6, hc6, hsp6⟩ := put_field_colon_head h6 t7
  have hd6 : t6.dropWhile isspace = c6 :: cs6 := by
    show (put_field r.sp_warn ++ ':' :: t7).dropWhile isspace = c6 :: cs6
    rw [hc6, List.dropWhile_cons, hsp6]; simp
  have e6' : int_field true (c6 :: cs6) = some (x6, t7) := by rw [← hc6]; exact e6
  have ht2 : t2 ≠ [] := by simp [t2]
  have hnis : ¬ (t2 = [] ∧ (r.sp_namp.head? = some '+' ∨ r.sp_namp.head? = some '-')) :=
    fun h => ht2 h.1
  unfold parse_line
  rw [hwhole, hdrop]
  simp only [if_neg hhash, hbuf, hcut]
  unfold parse_body
  simp only [body, n1, n2, List.drop_one, List.tail_cons, if_neg hnis]
  simp only [t2, p1, p2, List.tail_cons]
  simp only [t3, e3]
  simp only [t4, e4]
  simp only [t5, e5, hd6, e6', e7, e8]
  rcases hflag with ⟨hnil, hfv⟩ | ⟨c9, cs9, hc9, hint⟩
  · simp only [t8, t9, hnil, v3, v4, v5, v6, v7, v8]
    congr 2
    exact hfv.symm
  · simp only [t8, t9, hc9, hint, v3, v4, v5, v6, v7, v8, to_ulong]

/-! ### Lines of a file -/

theorem termLine_cons {c : Char} {l : List Char} (hc : c ≠ '\n') (h : TermLine l) :
    TermLine (c :: l) := by
  obtain ⟨body, rfl, hb⟩ := h
  refine ⟨c :: body, rfl, ?_⟩
  intro hm
  rcases List.mem_cons.mp hm with e | e
  · exact hc e.symm
  · exact hb e

theorem readLines_term_append {l : List Char} (h : TermLine l) (rest : List Char) :
    readLines (l ++ rest) = l :: readLines rest := by
  obtain ⟨body, rfl, hb⟩ := h
  induction body with
  | nil => simp [readLines]
  | cons c cs ih =>
    have hc : c ≠ '\n' := fun e => hb (by simp [e])
    have hcs : '\n' ∉ cs := fun e => hb (List.mem_cons_of_mem _ e)
    have := ih hcs
    simp only [List.cons_append, List.append_assoc] at this ⊢
    rw [readLines, if_neg hc, this]

theorem readLines_terms_append (P : List (List Char)) (hP : ∀ l ∈ P, TermLine l)
    (rest : List Char) : readLines (P.flatten ++ rest) = P ++ readLines rest := by
  induction P with
  | nil => simp
  | cons l ls ih =>
    rw [List.flatten_cons, List.append_assoc,
      readLines_term_append (hP l (List.mem_cons_self _ _)),
      ih (fun x hx => hP x (List.mem_cons_of_mem _ hx))]
    rfl

theorem readLines_flatten (d : List Char) : (readLines d).flatten = d := by
  induction d with
  | nil => simp [readLines]
  | cons c cs ih =>
    unfold readLines
    split
    · next h => simp [ih, h]
    · split
      · next h0 => rw [h0] at ih; simp at ih; simp [← ih]
      · next l ls h0 => rw [h0] at ih; simp at ih; simp [← ih]

theorem readLines_ok (d : List Char) : LinesOK (readLines d) := by
  induction d with
  | nil => simp [readLines, LinesOK]
  | cons c cs ih =>
    unfold readLines
    split
    · next h =>
      refine ⟨fun _ => ⟨[], by simp [h], by simp⟩, ih⟩
    · next hc =>
      split
      · simp [LinesOK]
      · next l ls h0 =>
        rw [h0] at ih
        exact ⟨fun hne => termLine_cons hc (ih.1 hne), ih.2⟩

/-! ### The scans of `find_password_info` and `store_password` -/

theorem firstNamed_cons_none {U : CStr} {l : List Char} {ls : List (List Char)}
    (h : parse_line l = none) : firstNamed U (l :: ls) = firstNamed U ls := by
  simp [firstNamed, List.filterMap_cons, h]

theorem firstNamed_cons_hit {U : CStr} {l : List Char} {ls : List (List Char)} {q : spwd}
    (h : parse_line l = some q) (hq : q.sp_namp = U) : firstNamed U (l :: ls) = some q := by
  simp [firstNamed, List.filterMap_cons, h, hq]

theorem firstNamed_cons_miss {U : CStr} {l : List Char} {ls : List (List Char)} {q : spwd}
    (h : parse_line l = some q) (hq : q.sp_namp ≠ U) :
    firstNamed U (l :: ls) = firstNamed U ls := by
  simp [firstNamed, List.filterMap_cons, h, hq]

theorem memcmp_test_iff (a b : CStr) (ha : Char.ofNat 0 ∉ a) (hb : Char.ofNat 0 ∉ b) :
    memcmp a b (if strlen a ≥ strlen b then strlen a else strlen b) = some 0 ↔ a = b := by
  have : (if strlen a ≥ strlen b then strlen a else strlen b) = max a.length b.length := by
    simp only [strlen]
    split <;> omega
  rw [this]
  exact memcmp_max_iff a b ha hb

/-- On names without a NUL the scan of `find_password_info` returns the first
record named `U`. -/
theorem find_scan_eq_firstNamed (U : CStr) (hU : Char.ofNat 0 ∉ U) (lines : List (List Char)) :
    find_scan U lines = firstNamed U lines := by
  induction lines with
  | nil => simp [find_scan, firstNamed]
  | cons l ls ih =>
    have ih' := ih
    cases hp : parse_line l with
    | none => rw [firstNamed_cons_none hp, find_scan, hp]; exact ih'
    | some q =>
      have hq := parse_line_name_nul hp
      rw [find_scan, hp]
      simp only
      by_cases hn : q.sp_namp = U
      · rw [firstNamed_cons_hit hp hn, if_pos ((memcmp_test_iff _ _ hq hU).mpr hn)]
      · rw [firstNamed_cons_miss hp hn, if_neg (fun h => hn ((memcmp_test_iff _ _ hq hU).mp h))]
        exact ih'

theorem strncmp_test_iff (a b : CStr) :
    (strlen a = strlen b ∧ strncmp a b (strlen b) = 0) ↔ a = b := strncmp_len_iff a b

theorem store_scan_none (U H : CStr) (data : List Char) (lines : List (List Char)) :
    ∀ cur pos, firstNamed U lines = none → store_scan U H data cur pos lines = none := by
  induction lines with
  | nil => intro _ _ _; simp [store_scan]
  | cons l ls ih =>
    intro cur pos h
    cases hp : parse_line l with
    | none =>
      rw [firstNamed_cons_none hp] at h
      rw [store_scan, hp]
      exact ih _ _ h
    | some q =>
      by_cases hn : q.sp_namp = U
      · rw [firstNamed_cons_hit hp hn] at h; cases h
      · rw [firstNamed_cons_miss hp hn] at h
        rw [store_scan, hp]
        simp only
        rw [if_neg (fun hh => hn ((strncmp_test_iff _ _).mp hh))]
        exact ih _ _ h

theorem firstNamed_ne_nil {U : CStr} {ls : List (List Char)} {r : spwd}
    (h : firstNamed U ls = some r) : ls ≠ [] := by
  rintro rfl
  simp [firstNamed] at h

theorem find_scan_skip (U : CStr) (hU : Char.ofNat 0 ∉ U) (P rest : List (List Char))
    (hP : ∀ l ∈ P, ∀ q, parse_line l = some q → q.sp_namp ≠ U) :
    find_scan U (P ++ rest) = find_scan U rest := by
  induction P with
  | nil => rfl
  | cons l ls ih =>
    have ih' := ih (fun x hx => hP x (List.mem_cons_of_mem _ hx))
    rw [List.cons_append, find_scan]
    cases hp : parse_line l with
    | none => exact ih'
    | some q =>
      have hne := hP l (List.mem_cons_self _ _) q hp
      have hq := parse_line_name_nul hp
      simp only
      rw [if_neg (fun h => hne ((memcmp_test_iff _ _ hq hU).mp h))]
      exact ih'

theorem find_scan_hit (U : CStr) (hU : Char.ofNat 0 ∉ U) (l : List Char) (rest : List (List Char))
    (q : spwd) (hp : parse_line l = some q) (hq : q.sp_namp = U) :
    find_scan U (l :: rest) = some q := by
  rw [find_scan, hp]
  simp only
  rw [if_pos ((memcmp_test_iff _ _ (hq ▸ hU) hU).mpr hq)]

/-- The scan of `store_password` on a store that holds a record named `U`:
the record is rewritten at the saved offset, and the scan of
`find_password_info` over the new content returns the rewritten record. -/
theorem store_scan_found (U H : CStr) (hH0 : Char.ofNat 0 ∉ H)
    (hH : nss_valid_field H = true) (r : spwd) (hw : NoWrappedField r)
    (lines : List (List Char)) :
    ∀ (P S : List (List Char)),
      (∀ l ∈ P, TermLine l ∧ ∀ q, parse_line l = some q → q.sp_namp ≠ U) →
      (∀ l ∈ S, TermLine l ∧ parse_line l = none) →
      LinesOK lines →
      firstNamed U lines = some r →
      ∃ d, store_scan U H (P.flatten ++ S.flatten ++ lines.flatten) P.flatten.length
          (P.flatten.length + S.flatten.length) lines = some d ∧
        find_scan U (readLines d) = some { r with sp_pwdp := some H } := by
  induction lines with
  | nil => intro P S _ _ _ h; simp [firstNamed] at h
  | cons l ls ih =>
    intro P S hP hS hok hfirst
    cases hp : parse_line l with
    | none =>
      rw [firstNamed_cons_none hp] at hfirst
      have hterm : TermLine l := hok.1 (firstNamed_ne_nil hfirst)
      have := ih P (S ++ [l]) hP
        (by
          intro x hx
          rcases List.mem_append.mp hx with h | h
          · exact hS x h
          · simp only [List.mem_singleton] at h; subst h; exact ⟨hterm, hp⟩)
        hok.2 hfirst
      rw [store_scan, hp]
      simp only [List.flatten_append, List.flatten_cons, List.flatten_nil, List.append_nil,
        List.length_append, List.append_assoc] at this ⊢
      rw [← Nat.add_assoc] at this
      exact this
    | some q =>
      have hqnul : Char.ofNat 0 ∉ q.sp_namp := parse_line_name_nul hp
      by_cases hn : q.sp_namp = U
      · rw [firstNamed_cons_hit hp hn] at hfirst
        simp only [Option.some.injEq] at hfirst
        subst hfirst
        have hU : Char.ofNat 0 ∉ U := hn ▸ hqnul
        obtain ⟨bytes, hput, hparse, hterm⟩ := putspent_roundtrip (parse_line_ok hp) hw H hH0 hH
        refine ⟨fwrite_at (P.flatten ++ S.flatten ++ (l :: ls).flatten) P.flatten.length bytes,
          ?_, ?_⟩
        · rw [store_scan, hp]
          simp only
          rw [if_pos ((strncmp_test_iff _ _).mpr hn), hput]
        · have hd : fwrite_at (P.flatten ++ S.flatten ++ (l :: ls).flatten) P.flatten.length bytes
              = P.flatten ++ (bytes ++ (S.flatten ++ (l :: ls).flatten).drop bytes.length) := by
            simp only [fwrite_at, List.append_assoc, List.take_left', List.drop_append]
          rw [hd, readLines_terms_append P (fun x hx => (hP x hx).1),
            readLines_term_append hterm,
            find_scan_skip U hU P _ (fun x hx => (hP x hx).2)]
          exact find_scan_hit U hU bytes _ _ hparse hn
      · rw [firstNamed_cons_miss hp hn] at hfirst
        have hterm : TermLine l := hok.1 (firstNamed_ne_nil hfirst)
        have := ih (P ++ S ++ [l]) []
          (by
            intro x hx
            rcases List.mem_append.mp hx with h | h
            · rcases List.mem_append.mp h with h | h
              · exact hP x h
              · exact ⟨(hS x h).1, fun q' hq' => by rw [(hS x h).2] at hq'; cases hq'⟩
            · simp only [List.mem_singleton] at h
              subst h
              refine ⟨hterm, fun q' hq' => ?_⟩
              rw [hp] at hq'
              simp only [Option.some.injEq] at hq'
              subst hq'
              exact hn)
          (by simp) hok.2 hfirst
        rw [store_scan, hp]
        simp only
        rw [if_neg (fun hh => hn ((strncmp_test_iff _ _).mp hh))]
        simp only [List.flatten_append, List.flatten_cons, List.flatten_nil, List.append_nil,
          List.length_append, List.append_assoc, Nat.add_zero] at this ⊢
        rw [← Nat.add_assoc] at this
        exact this

/-! ### Salt generation -/

theorem l64a_loop_length_le (fuel m : Nat) : (l64a_loop fuel m).length ≤ fuel := by
  induction fuel generalizing m with
  | zero => simp [l64a_loop]
  | succ k ih =>
    unfold l64a_loop
    split
    · simp
    · simpa using ih (m / 64)

theorem l64a_length_le (n : Nat) : (l64a n).length ≤ 6 := l64a_loop_length_le 6 _

theorem generate_salt_loop_ge (salt_size : Nat) (rs : List Nat) :
    ∀ (salt out : CStr), generate_salt_loop salt_size salt rs = some out → salt_size ≤ out.length := by
  induction rs with
  | nil => intro salt out h; simp [generate_salt_loop] at h
  | cons r rs ih =>
    intro salt out h
    simp only [generate_salt_loop] at h
    split at h
    · exact ih _ _ h
    · next hlt =>
      simp only [Option.some.injEq] at h
      subst h
      simpa [strlen] using hlt


theorem generate_salt_loop_finishes (salt_size : Nat) (rs : List Nat) :
    ∀ (salt : CStr), rs ≠ [] → salt_size ≤ salt.length + (rs.map (fun r => (l64a r).length)).sum →
      ∃ out, generate_salt_loop salt_size salt rs = some out := by
  induction rs with
  | nil => intro salt h; exact absurd rfl h
  | cons r rs ih =>
    intro salt _ hsum
    simp only [generate_salt_loop]
    split
    · next hlt =>
      apply ih
      · rintro rfl
        simp [strlen] at hlt hsum
        omega
      · simp [strlen] at hlt hsum ⊢
        omega
    · exact ⟨_, rfl⟩

theorem generate_salt_loop_le (salt_size : Nat) (rs : List Nat) :
    ∀ (salt out : CStr), generate_salt_loop salt_size salt rs = some out →
      out.length ≤ max salt.length (salt_size - 1) + 6 := by
  induction rs with
  | nil => intro salt out h; simp [generate_salt_loop] at h
  | cons r rs ih =>
    intro salt out h
    simp only [generate_salt_loop] at h
    have h6 := l64a_length_le r
    split at h
    · next hlt =>
      have := ih _ _ h
      simp only [strlen, List.length_append] at hlt this
      omega
    · simp only [Option.some.injEq] at h
      subst h
      simp only [List.length_append]
      omega

/-- The string that `generate_salt` builds in `salt[32]` stays within the
buffer: it never exceeds 21 characters. -/
theorem generate_salt_fits_buffer (salt_size r : Nat) (rs : List Nat) (out : CStr)
    (hsize : salt_size ≤ MAX_SALT_SIZE)
    (h : generate_salt_loop salt_size (l64a r) rs = some out) : out.length + 1 ≤ 32 := by
  have h1 := generate_salt_loop_le salt_size rs _ _ h
  have h6 := l64a_length_le r
  simp only [MAX_SALT_SIZE] at hsize
  omega

theorem generate_salt_ret_length (salt_size : Nat) (rnd : List Nat) (out : Option CStr)
    (h : generate_salt salt_size rnd = .ret out)
    (hsize : salt_size ≥ MIN_SALT_SIZE ∧ salt_size ≤ MAX_SALT_SIZE) :
    ∃ salt, out = some salt ∧ strlen salt = salt_size := by
  simp only [generate_salt, if_neg (not_not.mpr hsize)] at h
  cases rnd with
  | nil => simp at h
  | cons r rs =>
    simp only [List.nil_append] at h
    cases hl : generate_salt_loop salt_size (l64a r) rs with
    | none => simp [hl] at h
    | some salt =>
      simp only [hl, Outcome.ret.injEq] at h
      refine ⟨_, h.symm, ?_⟩
      have := generate_salt_loop_ge _ _ _ _ hl
      simp only [strlen, List.length_take]
      omega

/-! ### Account removal -/

/-- The call `create_user (username, FALSE)` returns NULL whatever the command does. -/
theorem create_user_delete_null (env : Env) (username : CStr) (s : Sys) :
    (create_user env username false s).1 = none := by
  simp only [create_user, Bool.false_eq_true, if_false]
  split <;> rfl


/-! ## The authorization checker -/

theorem strncmp_strlen_iff (a : CStr) : ∀ (b : CStr), Char.ofNat 0 ∉ b →
    (strncmp a b (strlen b) = 0 ↔ b <+: a) := by
  induction a with
  | nil =>
    intro b hb
    cases b with
    | nil => simp [strncmp, strlen]
    | cons y ys =>
      have hy : y.toNat ≠ 0 := fun h0 => hb (by rw [← char_toNat_eq_zero h0]; simp)
      simp only [strlen, List.length_cons, strncmp, List.prefix_nil, reduceCtorEq, iff_false]
      omega
  | cons x xs ih =>
    intro b hb
    cases b with
    | nil => simp [strncmp, strlen]
    | cons y ys =>
      simp only [strlen, List.length_cons, strncmp]
      by_cases hxy : x = y
      · subst hxy
        rw [if_pos rfl, List.cons_prefix_cons]
        simp only [true_and]
        exact ih ys (fun h => hb (List.mem_cons_of_mem _ h))
      · rw [if_neg hxy, List.cons_prefix_cons]
        simp only [Ne.symm hxy, false_and, iff_false]
        exact char_sub_ne_zero hxy

/-- What `validate_user` decides for a requester whose path owner resolves to
the account `pw_name`: it returns `0` exactly when the claimed user name is an
initial segment of `pw_name` or `pw_name` begins with `ops`. -/
theorem validate_user_zero_iff (E : Consts) (env : Env) (client : passwd_client_t)
    (pw_name : CStr) (hE : E.PASSWD_ERR_INVALID_USER ≠ 0)
    (hname : Char.ofNat 0 ∉ client.msg.username)
    (howner : env.getpwuid ((env.stat client.msg.file_path).getD 0) = some pw_name) :
    validate_user E env (some client) = 0 ↔
      (client.msg.username <+: pw_name ∨ "ops".toList <+: pw_name) := by
  have key : validate_user E env (some client) =
      (if strncmp pw_name client.msg.username (strlen client.msg.username) = 0 then 0
       else if strncmp pw_name "ops".toList (strlen "ops".toList) = 0 then 0
       else E.PASSWD_ERR_INVALID_USER) := by
    unfold validate_user
    cases hs : env.stat client.msg.file_path with
    | none => rw [hs] at howner; simp only [Option.getD_none] at howner; simp only [hs, howner]
    | some uid => rw [hs] at howner; simp only [Option.getD_some] at howner; simp only [hs, howner]
  rw [key, ← strncmp_strlen_iff pw_name _ hname,
    ← strncmp_strlen_iff pw_name "ops".toList (by decide)]
  by_cases h1 : strncmp pw_name client.msg.username (strlen client.msg.username) = 0
  · simp only [h1, if_true, true_or]
  · by_cases h2 : strncmp pw_name "ops".toList (strlen "ops".toList) = 0
    · simp only [h1, h2, if_true, if_false, or_true]
    · simp only [h1, h2, if_false, or_self, iff_false]
      exact hE

/-- Claim C1, on the input where it fails: the requester's path belongs to the
account `alice2` and the request claims the user name `alice`. The two names
differ and `alice2` is not `ops`, yet `validate_user` returns `0` (Allowed),
because `strncmp` compares only the first `strlen ("alice")` characters. -/
theorem validate_user_allows_longer_owner (E : Consts) :
    validate_user E (host "alice2".toList failing_command)
        (some (request E.PASSWD_MSG_CHG_PASSWORD "alice".toList)) = 0 ∧
      "alice2".toList ≠ "alice".toList ∧ "alice2".toList ≠ "ops".toList := by
  have h : strncmp "alice2".toList "alice".toList (strlen "alice".toList) = 0 := by decide
  refine ⟨?_, by decide, by decide⟩
  simp only [validate_user, host, request, if_true, h]

/-! ## The shadow-store accessor -/

/-- Claim C3: when the lock and the open succeed, `find_password_info (U)`
returns the first record of the shadow file, in file order, whose name equals
`U`, and NULL when there is none; in particular the name of the record
returned is exactly `U`, never a longer or a shorter one. `U` is a C string
(it holds no NUL). -/
theorem find_password_info_first_exact (U : CStr) (s : Sys)
    (hU : Char.ofNat 0 ∉ U)
    (hlock : s.lock_ok = true) (hopen : s.open_ok = true) :
    (find_password_info (some U) s).1 =
        (records s.shadow).find? (fun q => decide (q.sp_namp = U)) ∧
      ∀ r, (find_password_info (some U) s).1 = some r → r.sp_namp = U := by
  have key : (find_password_info (some U) s).1 =
      (records s.shadow).find? (fun q => decide (q.sp_namp = U)) := by
    simp only [find_password_info, hlock, hopen, not_true_eq_false, if_false]
    exact find_scan_eq_firstNamed U hU _
  refine ⟨key, fun r hr => ?_⟩
  rw [key] at hr
  simpa using List.find?_some hr

theorem find_password_info_first_exact_witness :
    (Char.ofNat 0 ∉ "bob".toList ∧
        (idle shadow_two).lock_ok = true ∧ (idle shadow_two).open_ok = true) ∧
      ((find_password_info (some "bob".toList) (idle shadow_two)).1 =
          (records (idle shadow_two).shadow).find? (fun q => decide (q.sp_namp = "bob".toList)) ∧
        ∀ r, (find_password_info (some "bob".toList) (idle shadow_two)).1 = some r →
          r.sp_namp = "bob".toList) :=
  ⟨⟨by decide, rfl, rfl⟩,
    find_password_info_first_exact "bob".toList (idle shadow_two) (by decide) rfl rfl⟩

/-- Claim C2, as amended: for every shadow file whose first record named `U`
is `r`, where no `long` field of `r` is below `-1`, and for every hash string
`H` (a C string, so without NUL) that is shorter than 512 bytes and holds
neither a colon nor a newline, when the lock and the open succeed,
`store_password (U, H)` returns `PASSWD_ERR_SUCCESS` and a following
`find_password_info (U)` returns the record `r` with `sp_pwdp` replaced by `H`
and every other field as before. -/
theorem store_then_find (E : Consts) (s : Sys) (U H : CStr) (r : spwd)
    (hlock : s.lock_ok = true) (hopen : s.open_ok = true)
    (hrec : (records s.shadow).find? (fun q => decide (q.sp_namp = U)) = some r)
    (hfields : NoWrappedField r)
    (hH0 : Char.ofNat 0 ∉ H) (hH : nss_valid_field H = true) (hlen : strlen H < 512) :
    ∃ s1, store_password E U H s = some (E.PASSWD_ERR_SUCCESS, s1) ∧
      (find_password_info (some U) s1).1 = some { r with sp_pwdp := some H } := by
  obtain ⟨d, hd, hfind⟩ := store_scan_found U H hH0 hH r hfields (readLines s.shadow) [] []
    (by simp) (by simp) (readLines_ok _) hrec
  simp only [List.flatten_nil, List.nil_append, List.length_nil, Nat.add_zero,
    readLines_flatten] at hd
  refine ⟨{ shadow := d, lock_ok := s.lock_ok, open_ok := s.open_ok, locked := false,
            open_files := s.open_files + 1 - 1 }, ?_, ?_⟩
  · have hl : ¬ 512 ≤ strlen H := by omega
    simp only [store_password, if_neg hl, hlock, hopen, not_true_eq_false, if_false, hd]
  · simp only [find_password_info, hlock, hopen, not_true_eq_false, if_false]
    exact hfind

theorem store_then_find_witness :
    ((idle shadow_two).lock_ok = true ∧ (idle shadow_two).open_ok = true ∧
      (records (idle shadow_two).shadow).find? (fun q => decide (q.sp_namp = "bob".toList)) =
        some ⟨"bob".toList, some "cd".toList, 16001, 0, 99999, 7, -1, -1, 2 ^ 64 - 1⟩ ∧
      NoWrappedField ⟨"bob".toList, some "cd".toList, 16001, 0, 99999, 7, -1, -1, 2 ^ 64 - 1⟩ ∧
      Char.ofNat 0 ∉ "$6$salt$hash".toList ∧
      nss_valid_field "$6$salt$hash".toList = true ∧ strlen "$6$salt$hash".toList < 512) ∧
    ∃ s1, store_password sampleConsts "bob".toList "$6$salt$hash".toList (idle shadow_two) =
        some (sampleConsts.PASSWD_ERR_SUCCESS, s1) ∧
      (find_password_info (some "bob".toList) s1).1 =
        some ⟨"bob".toList, some "$6$salt$hash".toList, 16001, 0, 99999, 7, -1, -1,
          2 ^ 64 - 1⟩ :=
  ⟨⟨rfl, rfl, by decide, ⟨by decide, by decide, by decide, by decide, by decide, by decide⟩,
      by decide, by decide, by decide⟩,
    store_then_find sampleConsts (idle shadow_two) "bob".toList "$6$salt$hash".toList
      ⟨"bob".toList, some "cd".toList, 16001, 0, 99999, 7, -1, -1, 2 ^ 64 - 1⟩
      rfl rfl (by decide) ⟨by decide, by decide, by decide, by decide, by decide, by decide⟩
      (by decide) (by decide) (by decide)⟩

/-- Claim C2 as stated fails, in each way that the amended claim excludes.
(1) The store holds one record for `bob` whose last-change field is the
numeral 2147483648, and `H` is an ordinary hash string: `store_password`
returns `PASSWD_ERR_SUCCESS`, the line is rewritten with the number
`-2147483648`, which `fgetspent` does not accept, and the following
`find_password_info` returns NULL. (2), (3) For a hash string with a colon or
a newline `putspent` refuses the record, `store_password` still returns
`PASSWD_ERR_SUCCESS`, and the following `find_password_info` returns the
record with its old `sp_pwdp`. (4) A hash string of 512 characters does not
fit `newpass[512]` with its terminator. -/
theorem store_then_find_fails :
    ((records shadow_wrapped).find? (fun q => decide (q.sp_namp = "bob".toList)) =
        some ⟨"bob".toList, some "cd".toList, -2147483648, 0, 99999, 7, -1, -1, 2 ^ 64 - 1⟩ ∧
      store_password sampleConsts "bob".toList "$6$salt$hash".toList (idle shadow_wrapped) =
        some (sampleConsts.PASSWD_ERR_SUCCESS,
          idle "bob:$6$salt$hash:-2147483648:0:99999:7:::\n".toList) ∧
      (find_password_info (some "bob".toList)
        (idle "bob:$6$salt$hash:-2147483648:0:99999:7:::\n".toList)).1 = none) ∧
    (store_password sampleConsts "bob".toList "x:y".toList (idle shadow_two) =
        some (sampleConsts.PASSWD_ERR_SUCCESS, idle shadow_two) ∧
      store_password sampleConsts "bob".toList "x\ny".toList (idle shadow_two) =
        some (sampleConsts.PASSWD_ERR_SUCCESS, idle shadow_two) ∧
      (find_password_info (some "bob".toList) (idle shadow_two)).1 =
        some ⟨"bob".toList, some "cd".toList, 16001, 0, 99999, 7, -1, -1, 2 ^ 64 - 1⟩) ∧
    store_password sampleConsts "bob".toList long_hash (idle shadow_two) = none := by
  refine ⟨⟨by decide, by decide, by decide⟩, ⟨by decide, by decide, by decide⟩, ?_⟩
  have h : 512 ≤ strlen long_hash := by
    unfold strlen long_hash
    rw [List.length_replicate]
  unfold store_password
  rw [if_pos h]

/-- When no record is named `U`, `store_password` leaves the bytes of the
shadow file as they are and returns `PASSWD_ERR_PASSWD_UPD_FAIL`. -/
theorem store_password_no_record (E : Consts) (s : Sys) (U H : CStr)
    (hlock : s.lock_ok = true) (hopen : s.open_ok = true) (hlen : strlen H < 512)
    (hrec : (records s.shadow).find? (fun q => decide (q.sp_namp = U)) = none) :
    store_password E U H s =
      some (E.PASSWD_ERR_PASSWD_UPD_FAIL,
        { s with locked := false, open_files := s.open_files + 1 - 1 }) := by
  have hl : ¬ 512 ≤ strlen H := by omega
  simp only [store_password, if_neg hl, hlock, hopen, not_true_eq_false, if_false,
    store_scan_none U H s.shadow (readLines s.shadow) 0 0 hrec]

/-- Claim C10, on the input where it fails: the shadow file holds the records
of `alice` and `bob`, and `store_password ("alice", "abcdef")` replaces a
hash of two characters by one of six. The record is rewritten in place, so the
four extra bytes overwrite the start of the next line: the call returns
`PASSWD_ERR_SUCCESS`, and the record of `bob`, found before the call, is no
longer in the store after it. -/
theorem store_password_overwrites_next :
    (find_password_info (some "bob".toList) (idle shadow_two)).1 =
        some ⟨"bob".toList, some "cd".toList, 16001, 0, 99999, 7, -1, -1, 2 ^ 64 - 1⟩ ∧
    store_password sampleConsts "alice".toList "abcdef".toList (idle shadow_two) =
        some (sampleConsts.PASSWD_ERR_SUCCESS,
          idle "alice:abcdef:16000:0:99999:7:::\ncd:16001:0:99999:7:::\n".toList) ∧
    (find_password_info (some "bob".toList)
        (idle "alice:abcdef:16000:0:99999:7:::\ncd:16001:0:99999:7:::\n".toList)).1 = none := by
  refine ⟨by decide, by decide, by decide⟩

/-- The lock and the stream after `store_password`, on every path: the stream
is always closed again, and the lock is held on return exactly when it was
obtained and `fopen` failed (or when it was held before and `lckpwdf`
failed). -/
theorem store_password_lock_state (E : Consts) (user pass : CStr) (s s1 : Sys) (code : Int)
    (h : store_password E user pass s = some (code, s1)) :
    s1.open_files = s.open_files ∧
      s1.locked = (if s.lock_ok = true then !s.open_ok else s.locked) := by
  unfold store_password at h
  split at h
  · cases h
  · split at h
    · next hl =>
      simp only [Option.some.injEq, Prod.mk.injEq] at h
      obtain ⟨-, rfl⟩ := h
      simp [hl]
    · next hl =>
      simp only [Bool.not_eq_true, Bool.not_eq_false] at hl
      dsimp only at h
      split at h
      · next ho =>
        simp only [Option.some.injEq, Prod.mk.injEq] at h
        obtain ⟨-, rfl⟩ := h
        simp only [Bool.not_eq_true] at ho
        simp [hl, ho]
      · next ho =>
        simp only [Bool.not_eq_true, Bool.not_eq_false] at ho
        split at h <;>
        · simp only [Option.some.injEq, Prod.mk.injEq] at h
          obtain ⟨-, rfl⟩ := h
          simp [hl, ho]

/-- Claim C8, on the input where it fails: the lock is obtained and `fopen`
fails. `store_password` returns `PASSWD_ERR_FATAL` at line 304 without calling
`ulckpwdf`, so the lock is still held on return. -/
theorem store_password_open_failure_keeps_lock (E : Consts) :
    store_password E "alice".toList "x".toList { idle shadow_two with open_ok := false } =
        some (E.PASSWD_ERR_FATAL, { idle shadow_two with open_ok := false, locked := true }) ∧
      ({ idle shadow_two with open_ok := false, locked := true } : Sys).locked = true := by
  refine ⟨?_, rfl⟩
  simp [store_password, idle, strlen]

/-! ## The salt generator and the hash-method resolver -/

/-- Claim C6: for a `salt_size` outside 8..16 `generate_salt` returns NULL;
for a `salt_size` in 8..16 every salt it returns is non-NULL and has length
exactly `salt_size`, and it does return one as soon as the values supplied
for `random()` are at least two and carry `salt_size` characters between
them. -/
theorem generate_salt_spec (salt_size : Nat) (rnd : List Nat) :
    (¬ (8 ≤ salt_size ∧ salt_size ≤ 16) → generate_salt salt_size rnd = .ret none) ∧
    (8 ≤ salt_size ∧ salt_size ≤ 16 →
      (∀ out, generate_salt salt_size rnd = .ret out →
        ∃ salt, out = some salt ∧ strlen salt = salt_size) ∧
      (2 ≤ rnd.length → salt_size ≤ (rnd.map (fun r => strlen (l64a r))).sum →
        ∃ salt, generate_salt salt_size rnd = .ret (some salt))) := by
  refine ⟨fun h => ?_, fun h => ⟨fun out hout => ?_, fun hlen hsum => ?_⟩⟩
  · simp only [generate_salt, MIN_SALT_SIZE, MAX_SALT_SIZE, ge_iff_le, if_pos h]
  · exact generate_salt_ret_length salt_size rnd out hout h
  · have h1 : ¬¬ (salt_size ≥ MIN_SALT_SIZE ∧ salt_size ≤ MAX_SALT_SIZE) := not_not.mpr h
    simp only [generate_salt, if_neg h1]
    cases rnd with
    | nil => simp at hlen
    | cons r rs =>
      have hrs : rs ≠ [] := by
        rintro rfl
        simp at hlen
      obtain ⟨out, hout⟩ := generate_salt_loop_finishes salt_size rs (l64a r) hrs
        (by simpa [strlen] using hsum)
      simp only [List.nil_append, hout]
      exact ⟨_, rfl⟩

theorem generate_salt_spec_witness :
    (8 ≤ 8 ∧ 8 ≤ 16) ∧ generate_salt 8 [12345678, 87654321, 5] = .ret (some "C34jlyLC".toList) ∧
      ∃ salt, some "C34jlyLC".toList = some salt ∧ strlen salt = 8 :=
  ⟨by decide, by decide,
    ((generate_salt_spec 8 [12345678, 87654321, 5]).2 (by decide)).1 _ (by decide)⟩

/-- For every value below `RAND_MAX` that `random()` returns, `SHA_salt_size`
is between 8 and 16. -/
theorem SHA_salt_size_range (r : Nat) (h : r < RAND_MAX) :
    8 ≤ SHA_salt_size r ∧ SHA_salt_size r ≤ 16 := by
  unfold SHA_salt_size RAND_MAX at *
  omega

/-- Claim C9, on the input where it fails: when `random()` returns `RAND_MAX`,
`SHA_salt_size` returns `8 + 9 = 17`, a length that `generate_salt` rejects
with NULL. -/
theorem SHA_salt_size_rand_max :
    SHA_salt_size RAND_MAX = 17 ∧
      ∀ rnd, generate_salt (SHA_salt_size RAND_MAX) rnd = .ret none := by
  have h17 : SHA_salt_size RAND_MAX = 17 := by decide
  refine ⟨h17, fun rnd => ?_⟩
  rw [h17]
  simp [generate_salt, MIN_SALT_SIZE, MAX_SALT_SIZE]

/-- With the method `MD5`, `create_new_salt` returns `$1$` followed by the
salt of eight characters that `generate_salt` returns. -/
theorem create_new_salt_MD5 (login_defs : Option (List CStr)) (rnd : List Nat) (salt : CStr)
    (h : generate_salt 8 rnd = .ret (some salt)) :
    (create_new_salt (some "MD5".toList) login_defs rnd).2 =
        .ret (some ("$1$".toList ++ salt)) ∧ strlen salt = 8 := by
  obtain ⟨s0, hs0, hlen⟩ := generate_salt_ret_length 8 rnd _ h (by decide)
  simp only [Option.some.injEq] at hs0
  subst hs0
  have h1 : strncmp "MD5".toList "MD5".toList (strlen "MD5".toList) = 0 := by decide
  have ht : List.take (40 - strlen (MAGNUM '1') - 1) salt = salt := by
    apply List.take_of_length_le
    simp only [strlen] at hlen
    simp only [strlen, MAGNUM, List.length_cons, List.length_nil, hlen]
    decide
  refine ⟨?_, hlen⟩
  simp only [create_new_salt, if_pos h1, concat_salt, h, ht]
  rfl

/-- Claim C4, on the method where it fails: when the resolved method is
`DES`, the test `0 != strncmp (crypt_method, "DES", 3)` of line 256 is false
and `create_new_salt` returns NULL, not the salt of eight characters. -/
theorem create_new_salt_DES_null (login_defs : Option (List CStr)) (rnd : List Nat) :
    (create_new_salt (some "DES".toList) login_defs rnd).2 = .ret none := by
  have h1 : ¬ strncmp "DES".toList "MD5".toList (strlen "MD5".toList) = 0 := by decide
  have h2 : ¬ strncmp "DES".toList "SHA256".toList (strlen "SHA256".toList) = 0 := by decide
  have h3 : ¬ strncmp "DES".toList "SHA512".toList (strlen "SHA512".toList) = 0 := by decide
  have h4 : ¬ strncmp "DES".toList "DES".toList (strlen "DES".toList) ≠ 0 := by decide
  simp only [create_new_salt, if_neg h1, if_neg h2, if_neg h3, if_neg h4]

/-- When `login.defs` cannot be opened, `find_encrypt_method` resolves to
`DES`. -/
theorem find_encrypt_method_unreadable : find_encrypt_method none = "DES".toList := rfl

/-- When a line keyed `ENCRYPT_METHOD` exists, `find_encrypt_method` resolves
to the rest of that line as `fgets` read it. -/
theorem find_encrypt_method_keyed (login_defs : Option (List CStr)) (value : CStr)
    (h : search_login_defs login_defs "ENCRYPT_METHOD".toList = some value) :
    find_encrypt_method login_defs = value := by
  simp only [find_encrypt_method, h]

/-- Claim C5, on the input where it fails: `login.defs` holds the single line
`MD5_CRYPT_ENAB no`. The value `search_login_defs` returns keeps the newline
that `fgets` leaves in the line, so it does not compare equal to `no` and
`find_encrypt_method` resolves to `MD5`, not to `DES`. -/
theorem find_encrypt_method_md5_no :
    search_login_defs (some ["MD5_CRYPT_ENAB no\n".toList]) "MD5_CRYPT_ENAB".toList =
        some "no\n".toList ∧
      find_encrypt_method (some ["MD5_CRYPT_ENAB no\n".toList]) = "MD5".toList := by
  refine ⟨by decide, by decide⟩

/-! ## The request dispatcher -/

/-- A DeleteUser request for a user name that `find_password_info` does not
find returns `PASSWD_ERR_USER_NOT_FOUND` and runs no command. -/
theorem delete_user_not_found (E : Consts) (env : Env) (client : passwd_client_t)
    (w : World) (rnd : List Nat)
    (hop : client.msg.op_code = E.PASSWD_MSG_DEL_USER)
    (hchg : E.PASSWD_MSG_DEL_USER ≠ E.PASSWD_MSG_CHG_PASSWORD)
    (hadd : E.PASSWD_MSG_DEL_USER ≠ E.PASSWD_MSG_ADD_USER)
    (hnone : (find_password_info (some client.msg.username) w.sys).1 = none) :
    process_client_request E env (some client) w rnd =
      .ret (E.PASSWD_ERR_USER_NOT_FOUND, some { client with passwd := none },
        { w with sys := (find_password_info (some client.msg.username) w.sys).2 }) := by
  have h1 : ¬ client.msg.op_code = E.PASSWD_MSG_CHG_PASSWORD := by rw [hop]; exact hchg
  have h2 : ¬ client.msg.op_code = E.PASSWD_MSG_ADD_USER := by rw [hop]; exact hadd
  simp only [process_client_request, if_neg h1, if_neg h2, if_pos hop]
  rcases hf : find_password_info (some client.msg.username) w.sys with ⟨e, s1⟩
  rw [hf] at hnone
  simp only at hnone
  subst hnone
  rfl

/-- Claim C7, what the code does instead: a DeleteUser request for a user name
that `find_password_info` finds always returns `PASSWD_ERR_SUCCESS`, never
`PASSWD_ERR_USERDEL_FAILED`, whatever the account-removal command does to the
store, because `create_user (username, FALSE)` returns NULL on every path. -/
theorem delete_user_always_success (E : Consts) (env : Env) (client : passwd_client_t)
    (w : World) (rnd : List Nat) (r : spwd)
    (hop : client.msg.op_code = E.PASSWD_MSG_DEL_USER)
    (hchg : E.PASSWD_MSG_DEL_USER ≠ E.PASSWD_MSG_CHG_PASSWORD)
    (hadd : E.PASSWD_MSG_DEL_USER ≠ E.PASSWD_MSG_ADD_USER)
    (hfound : (find_password_info (some client.msg.username) w.sys).1 = some r) :
    process_client_request E env (some client) w rnd =
      .ret (E.PASSWD_ERR_SUCCESS, some { client with passwd := none },
        { w with sys := (create_user env client.msg.username false
            (find_password_info (some client.msg.username) w.sys).2).2 }) := by
  have h1 : ¬ client.msg.op_code = E.PASSWD_MSG_CHG_PASSWORD := by rw [hop]; exact hchg
  have h2 : ¬ client.msg.op_code = E.PASSWD_MSG_ADD_USER := by rw [hop]; exact hadd
  simp only [process_client_request, if_neg h1, if_neg h2, if_pos hop]
  rcases hf : find_password_info (some client.msg.username) w.sys with ⟨e, s1⟩
  rw [hf] at hfound
  simp only at hfound
  subst hfound
  simp only
  rcases hc : create_user env client.msg.username false s1 with ⟨e2, s2⟩
  have := create_user_delete_null env client.msg.username s1
  rw [hc] at this
  simp only at this
  subst this
  rfl

/-- The failing input of claim C7: the store holds a record for `bob`, the
removal command fails and leaves the store as it is; the request returns
`PASSWD_ERR_SUCCESS` and `find_password_info` still finds `bob` afterwards. -/
theorem delete_user_always_success_witness :
    ((request sampleConsts.PASSWD_MSG_DEL_USER "bob".toList).msg.op_code =
        sampleConsts.PASSWD_MSG_DEL_USER ∧
      sampleConsts.PASSWD_MSG_DEL_USER ≠ sampleConsts.PASSWD_MSG_CHG_PASSWORD ∧
      sampleConsts.PASSWD_MSG_DEL_USER ≠ sampleConsts.PASSWD_MSG_ADD_USER ∧
      (find_password_info (some "bob".toList) (idle shadow_two)).1 =
        some ⟨"bob".toList, some "cd".toList, 16001, 0, 99999, 7, -1, -1, 2 ^ 64 - 1⟩) ∧
    process_client_request sampleConsts (host "ops".toList failing_command)
        (some (request sampleConsts.PASSWD_MSG_DEL_USER "bob".toList))
        { sys := idle shadow_two, crypt_method := none } [] =
      .ret (sampleConsts.PASSWD_ERR_SUCCESS,
        some { request sampleConsts.PASSWD_MSG_DEL_USER "bob".toList with passwd := none },
        { sys := (create_user (host "ops".toList failing_command) "bob".toList false
            (find_password_info (some "bob".toList) (idle shadow_two)).2).2,
          crypt_method := none }) ∧
    (find_password_info (some "bob".toList)
        (create_user (host "ops".toList failing_command) "bob".toList false
          (find_password_info (some "bob".toList) (idle shadow_two)).2).2).1 =
      some ⟨"bob".toList, some "cd".toList, 16001, 0, 99999, 7, -1, -1, 2 ^ 64 - 1⟩ :=
  ⟨⟨rfl, by decide, by decide, by decide⟩,
    delete_user_always_success sampleConsts (host "ops".toList failing_command)
      (request sampleConsts.PASSWD_MSG_DEL_USER "bob".toList)
      { sys := idle shadow_two, crypt_method := none } []
      ⟨"bob".toList, some "cd".toList, 16001, 0, 99999, 7, -1, -1, 2 ^ 64 - 1⟩
      rfl (by decide) (by decide) (by decide),
    by decide⟩

end PasswdSrv
